import Mathlib

/-!
Verification of the similarity-grouping pipeline of the photo-selector
repository.

The development shallowly embeds the TypeScript sources:

* `src/utils/clustering.ts` — cosine similarity/distance and `dbscan`;
* the embedding route (`initializeModel`, `POST`, `generateImageEmbedding`);
* the grouping route (`POST` of `group-photos`);
* the best-pick routes (`analyzePhotosWithLLM`, the per-group batch loop).

Modelling conventions:

* JavaScript numbers are modelled as `ℚ` (ideal arithmetic; the spec treats
  scores, distances and epsilons as real numbers).  `Math.sqrt` is not
  rational-valued, so every definition that the source feeds through
  `Math.sqrt` takes an explicit `sq : ℚ → ℚ` parameter; all theorems hold
  for every such function, and concrete evaluations only ever apply `sq`
  to perfect squares (unit-norm vectors), where any function agreeing with
  the real square root on those inputs gives the exact source behaviour.
* A JavaScript `throw` that a route converts into an error response is
  modelled with `Except String` / `Option`.
* Mutable per-request state (the `visited` / `clusterId` marks of `dbscan`,
  the module-level model cache) is modelled by explicit state passing.
-/

namespace PhotoSelector

/-- Accumulated `dotProduct` of the loop in `cosineSimilarity`
(`src/utils/clustering.ts`, lines 10–14): `Σ vecA[i] * vecB[i]`. -/
def dotProd : List ℚ → List ℚ → ℚ
  | a :: as, b :: bs => a * b + dotProd as bs
  | _, _ => 0

/-- `cosineSimilarity` (`src/utils/clustering.ts`, lines 1–23).
Throws on mismatched lengths (modelled as `none`); returns `0` when the
product of magnitudes is `0`; otherwise the normalised dot product.
`sq` stands for `Math.sqrt`. -/
def cosineSimilarity (sq : ℚ → ℚ) (vecA vecB : List ℚ) : Option ℚ :=
  if vecA.length = vecB.length then
    let dot := dotProd vecA vecB
    let normA := dotProd vecA vecA
    let normB := dotProd vecB vecB
    let magnitude := sq normA * sq normB
    some (if magnitude = 0 then 0 else dot / magnitude)
  else
    none

/-- `cosineDistance` (`src/utils/clustering.ts`, lines 25–27):
`1 - cosineSimilarity`. -/
def cosineDistance (sq : ℚ → ℚ) (vecA vecB : List ℚ) : Option ℚ :=
  (cosineSimilarity sq vecA vecB).map (fun s => 1 - s)

/-- The mutable marks of `dbscan`'s `Point` records
(`src/utils/clustering.ts`, lines 29–34, 46–51): `visited` and `clusterId`
per index, with `clusterId = -1` meaning "no cluster / noise". -/
structure DbState where
  visited : ℕ → Bool
  cid : ℕ → ℤ

/-- Set the `visited` mark of point `q`. -/
def markVisited (s : DbState) (q : ℕ) : DbState :=
  { s with visited := fun j => if j = q then true else s.visited j }

/-- Set the `clusterId` of point `q` to `v`. -/
def setCid (s : DbState) (q : ℕ) (v : ℤ) : DbState :=
  { s with cid := fun j => if j = q then v else s.cid j }

/-- The `if (neighbor.clusterId === -1) neighbor.clusterId = clusterId`
assignment inside `expandCluster` (`src/utils/clustering.ts`, lines 89–91). -/
def assignIfFree (s : DbState) (q : ℕ) (c : ℕ) : DbState :=
  if s.cid q = -1 then setCid s q (c : ℤ) else s

/-- `regionQuery` (`src/utils/clustering.ts`, lines 55–70): the point
itself, followed by every other index whose distance is `≤ eps`, in
ascending index order. -/
def regionQuery (n : ℕ) (dist : ℕ → ℕ → ℚ) (eps : ℚ) (pointIdx : ℕ) : List ℕ :=
  pointIdx :: (List.range n).filter (fun i => decide (i ≠ pointIdx ∧ dist pointIdx i ≤ eps))

/-- Number of points of `0..n-1` not yet visited (termination measure for
the growing work-list of `expandCluster`). -/
def unvisitedCount (n : ℕ) (s : DbState) : ℕ :=
  (List.range n).countP (fun j => !(s.visited j))

theorem visited_setCid (s : DbState) (q : ℕ) (v : ℤ) :
    (setCid s q v).visited = s.visited := rfl

theorem visited_assignIfFree (s : DbState) (q : ℕ) (c : ℕ) :
    (assignIfFree s q c).visited = s.visited := by
  unfold assignIfFree
  split <;> rfl

theorem unvisitedCount_assignIfFree (n : ℕ) (s : DbState) (q : ℕ) (c : ℕ) :
    unvisitedCount n (assignIfFree s q c) = unvisitedCount n s := by
  unfold unvisitedCount
  rw [visited_assignIfFree]

theorem countP_le_countP {p p' : ℕ → Bool} (hle : ∀ x, p' x = true → p x = true) :
    ∀ l : List ℕ, l.countP p' ≤ l.countP p := by
  intro l
  induction l with
  | nil => simp
  | cons a t ih =>
    by_cases hpa : p' a = true
    · simp [List.countP_cons, hpa, hle a hpa]
      omega
    · by_cases hqa : p a = true <;>
        simp [List.countP_cons, hpa, hqa] <;> omega

theorem countP_lt_countP {p p' : ℕ → Bool} {q : ℕ}
    (hle : ∀ x, p' x = true → p x = true) (hq' : p' q = false) (hq : p q = true) :
    ∀ l : List ℕ, q ∈ l → l.countP p' < l.countP p := by
  intro l hl
  induction l with
  | nil => cases hl
  | cons a t ih =>
    rcases List.mem_cons.mp hl with rfl | hmem
    · have ht := countP_le_countP hle t
      simp [List.countP_cons, hq', hq]
      omega
    · have ht := ih hmem
      by_cases hpa : p' a = true
      · simp [List.countP_cons, hpa, hle a hpa]
        omega
      · by_cases hqa : p a = true <;>
          simp [List.countP_cons, hpa, hqa] <;> omega

theorem unvisitedCount_markVisited_lt (n : ℕ) (s : DbState) (q : ℕ)
    (hq : q < n) (hv : s.visited q = false) :
    unvisitedCount n (markVisited s q) < unvisitedCount n s := by
  unfold unvisitedCount markVisited
  refine @countP_lt_countP (fun j => !(s.visited j))
    (fun j => !(if j = q then true else s.visited j)) q ?_ ?_ ?_
    (List.range n) (List.mem_range.mpr hq)
  · intro x hx
    by_cases hxq : x = q <;> simp [hxq] at hx ⊢ <;> simp [hx]
  · simp
  · simp [hv]

/-- `expandCluster`'s work-list loop (`src/utils/clustering.ts`,
lines 72–95): process the growing `neighbors` list left to right; an
unvisited neighbour is marked visited, its region is queried, and — if it
is dense enough — its whole region is appended to the work-list; every
processed neighbour with no cluster yet is claimed for cluster `c`. -/
def expandLoop (n : ℕ) (dist : ℕ → ℕ → ℚ) (eps : ℚ) (minPts : ℕ) (c : ℕ) :
    DbState → List ℕ → DbState
  | s, [] => s
  | s, q :: rest =>
    if hq : q < n then
      if hv : s.visited q = true then
        expandLoop n dist eps minPts c (assignIfFree s q c) rest
      else
        let s1 := markVisited s q
        let nbrs := regionQuery n dist eps q
        if minPts ≤ nbrs.length then
          expandLoop n dist eps minPts c (assignIfFree s1 q c) (rest ++ nbrs)
        else
          expandLoop n dist eps minPts c (assignIfFree s1 q c) rest
    else
      expandLoop n dist eps minPts c s rest
termination_by s queue => (unvisitedCount n s, queue.length)
decreasing_by
  · rw [Prod.lex_def]
    right
    refine ⟨?_, ?_⟩
    · rw [unvisitedCount_assignIfFree]
    · simp
  · rw [Prod.lex_def]
    left
    rw [unvisitedCount_assignIfFree]
    exact unvisitedCount_markVisited_lt n s q hq (by simpa using hv)
  · rw [Prod.lex_def]
    left
    rw [unvisitedCount_assignIfFree]
    exact unvisitedCount_markVisited_lt n s q hq (by simpa using hv)
  · rw [Prod.lex_def]
    right
    exact ⟨rfl, by simp⟩

/-- Structural twin of `expandLoop`, recursing on an explicit fuel bound:
the kernel cannot evaluate well-founded recursion, so concrete runs go
through this function, which `expandLoopFuel_eq` below proves equal to
`expandLoop` whenever the fuel covers the loop's termination measure. -/
def expandLoopFuel (n : ℕ) (dist : ℕ → ℕ → ℚ) (eps : ℚ) (minPts : ℕ) (c : ℕ) :
    ℕ → DbState → List ℕ → DbState
  | 0, s, _ => s
  | _ + 1, s, [] => s
  | fuel + 1, s, q :: rest =>
    if q < n then
      if s.visited q = true then
        expandLoopFuel n dist eps minPts c fuel (assignIfFree s q c) rest
      else
        let s1 := markVisited s q
        let nbrs := regionQuery n dist eps q
        if minPts ≤ nbrs.length then
          expandLoopFuel n dist eps minPts c fuel (assignIfFree s1 q c) (rest ++ nbrs)
        else
          expandLoopFuel n dist eps minPts c fuel (assignIfFree s1 q c) rest
    else
      expandLoopFuel n dist eps minPts c fuel s rest

/-- `expandCluster` (`src/utils/clustering.ts`, lines 72–95): assign the
seed to cluster `c`, then run the work-list loop over its neighbours. -/
def expandCluster (n : ℕ) (dist : ℕ → ℕ → ℚ) (eps : ℚ) (minPts : ℕ)
    (pointIdx : ℕ) (neighbors : List ℕ) (c : ℕ) (s : DbState) : DbState :=
  expandLoop n dist eps minPts c (setCid s pointIdx (c : ℤ)) neighbors

/-- The main loop of `dbscan` (`src/utils/clustering.ts`, lines 97–112)
over the point indices, carrying the next fresh cluster id. -/
def dbscanLoop (n : ℕ) (dist : ℕ → ℕ → ℚ) (eps : ℚ) (minPts : ℕ) :
    DbState → ℕ → List ℕ → DbState × ℕ
  | s, counter, [] => (s, counter)
  | s, counter, i :: rest =>
    if s.visited i = true then
      dbscanLoop n dist eps minPts s counter rest
    else
      let s1 := markVisited s i
      let nbrs := regionQuery n dist eps i
      if nbrs.length < minPts then
        dbscanLoop n dist eps minPts (setCid s1 i (-1)) counter rest
      else
        dbscanLoop n dist eps minPts
          (expandCluster n dist eps minPts i nbrs counter s1) (counter + 1) rest

/-- Structural twin of `dbscanLoop`, calling the fuelled expansion with
fuel equal to its termination measure (see `dbscanLoopE_eq`). -/
def dbscanLoopE (n : ℕ) (dist : ℕ → ℕ → ℚ) (eps : ℚ) (minPts : ℕ) :
    DbState → ℕ → List ℕ → DbState × ℕ
  | s, counter, [] => (s, counter)
  | s, counter, i :: rest =>
    if s.visited i = true then
      dbscanLoopE n dist eps minPts s counter rest
    else
      let s1 := markVisited s i
      let nbrs := regionQuery n dist eps i
      if nbrs.length < minPts then
        dbscanLoopE n dist eps minPts (setCid s1 i (-1)) counter rest
      else
        let s2 := setCid s1 i (counter : ℤ)
        dbscanLoopE n dist eps minPts
          (expandLoopFuel n dist eps minPts counter
            (unvisitedCount n s2 * (n + 2) + nbrs.length) s2 nbrs)
          (counter + 1) rest

/-- `ClusterResult` (`src/utils/clustering.ts`, lines 36–39). -/
structure ClusterResult where
  clusters : List (List ℕ)
  noise : List ℕ
deriving DecidableEq

/-- The result extraction of `dbscan` (`src/utils/clustering.ts`,
lines 114–132) over an abstract distance function: run the main loop over
indices `0..n-1`, then collect each cluster id's members in index order,
drop empty clusters, and collect the `-1`-marked points as noise. -/
def dbscanCore (n : ℕ) (dist : ℕ → ℕ → ℚ) (eps : ℚ) (minPts : ℕ) : ClusterResult :=
  let res := dbscanLoop n dist eps minPts ⟨fun _ => false, fun _ => -1⟩ 0 (List.range n)
  let clusters := (List.range res.2).map
    (fun (c : ℕ) => (List.range n).filter (fun i => decide (res.1.cid i = (c : ℤ))))
  { clusters := clusters.filter (fun cl => decide (0 < cl.length)),
    noise := (List.range n).filter (fun i => decide (res.1.cid i = -1)) }

/-- The pairwise distance `dbscan` computes between points `i` and `j` of
its input (`cosineDistance` over the stored embeddings).  Out-of-range
indices never occur in `dbscanCore`. -/
def distOf (sq : ℚ → ℚ) (embeddings : List (List ℚ)) (i j : ℕ) : ℚ :=
  (cosineDistance sq (embeddings.getD i []) (embeddings.getD j [])).getD 0

/-- `dbscan` (`src/utils/clustering.ts`, lines 41–133).  When two input
vectors have different lengths the source throws from inside
`cosineSimilarity` (every pair is eventually queried), modelled as
`none`; otherwise the pure clustering result. -/
def dbscan (sq : ℚ → ℚ) (embeddings : List (List ℚ)) (eps : ℚ) (minPts : ℕ) :
    Option ClusterResult :=
  if ∀ a ∈ embeddings, ∀ b ∈ embeddings, a.length = b.length then
    some (dbscanCore embeddings.length (distOf sq embeddings) eps minPts)
  else
    none

/-- Kernel-evaluable twin of `dbscanCore` (see `dbscanCoreE_eq`). -/
def dbscanCoreE (n : ℕ) (dist : ℕ → ℕ → ℚ) (eps : ℚ) (minPts : ℕ) : ClusterResult :=
  let res := dbscanLoopE n dist eps minPts ⟨fun _ => false, fun _ => -1⟩ 0 (List.range n)
  let clusters := (List.range res.2).map
    (fun (c : ℕ) => (List.range n).filter (fun i => decide (res.1.cid i = (c : ℤ))))
  { clusters := clusters.filter (fun cl => decide (0 < cl.length)),
    noise := (List.range n).filter (fun i => decide (res.1.cid i = -1)) }

/-- Kernel-evaluable twin of `dbscan` (see `dbscanE_eq`). -/
def dbscanE (sq : ℚ → ℚ) (embeddings : List (List ℚ)) (eps : ℚ) (minPts : ℕ) :
    Option ClusterResult :=
  if ∀ a ∈ embeddings, ∀ b ∈ embeddings, a.length = b.length then
    some (dbscanCoreE embeddings.length (distOf sq embeddings) eps minPts)
  else
    none

section DbscanLemmas

variable (n : ℕ) (dist : ℕ → ℕ → ℚ) (eps : ℚ) (minPts : ℕ)

/-- A point is a core point when its own region (which always contains the
point itself) reaches the `minPts` threshold. -/
def isCore (p : ℕ) : Prop := minPts ≤ (regionQuery n dist eps p).length

/-- A point is `covered` when it lies in the region of some core point.
These are exactly the points `dbscan` puts in a cluster. -/
def covered (j : ℕ) : Prop :=
  ∃ c, c < n ∧ isCore n dist eps minPts c ∧ j ∈ regionQuery n dist eps c

theorem mem_regionQuery {p j : ℕ} :
    j ∈ regionQuery n dist eps p ↔ j = p ∨ (j < n ∧ j ≠ p ∧ dist p j ≤ eps) := by
  simp [regionQuery, List.mem_filter, List.mem_range, decide_eq_true_iff]

theorem self_mem_regionQuery (p : ℕ) : p ∈ regionQuery n dist eps p :=
  List.mem_cons_self _ _

theorem mem_regionQuery_lt {p j : ℕ} (hp : p < n)
    (hj : j ∈ regionQuery n dist eps p) : j < n := by
  rcases (mem_regionQuery n dist eps).mp hj with rfl | ⟨h, _⟩
  · exact hp
  · exact h

theorem cid_setCid (s : DbState) (q : ℕ) (v : ℤ) (j : ℕ) :
    (setCid s q v).cid j = if j = q then v else s.cid j := rfl

theorem cid_assignIfFree_of_ne (s : DbState) (q : ℕ) (c : ℕ) (j : ℕ)
    (h : s.cid j ≠ -1) : (assignIfFree s q c).cid j = s.cid j := by
  unfold assignIfFree
  by_cases hc : s.cid q = -1
  · rw [if_pos hc, cid_setCid]
    have hjq : j ≠ q := fun hjq => h (hjq ▸ hc)
    rw [if_neg hjq]
  · rw [if_neg hc]

theorem cid_assignIfFree_self (s : DbState) (q : ℕ) (c : ℕ) :
    (assignIfFree s q c).cid q ≠ -1 := by
  unfold assignIfFree
  by_cases hc : s.cid q = -1
  · rw [if_pos hc, cid_setCid, if_pos rfl]
    omega
  · rw [if_neg hc]
    exact hc

theorem cid_assignIfFree_ne_cases (s : DbState) (q : ℕ) (c : ℕ) (j : ℕ)
    (h : (assignIfFree s q c).cid j ≠ -1) : s.cid j ≠ -1 ∨ j = q := by
  by_cases hjq : j = q
  · exact Or.inr hjq
  · left
    intro hj
    apply h
    unfold assignIfFree
    by_cases hc : s.cid q = -1
    · rw [if_pos hc, cid_setCid, if_neg hjq]
      exact hj
    · rw [if_neg hc]
      exact hj

theorem cid_assignIfFree_lt (s : DbState) (q : ℕ) (c : ℕ) {B : ℤ}
    (hs : ∀ j, s.cid j < B) (hc : (c : ℤ) < B) (j : ℕ) :
    (assignIfFree s q c).cid j < B := by
  unfold assignIfFree
  by_cases h : s.cid q = -1
  · rw [if_pos h, cid_setCid]
    by_cases hjq : j = q
    · rw [if_pos hjq]; exact hc
    · rw [if_neg hjq]; exact hs j
  · rw [if_neg h]; exact hs j

theorem cid_assignIfFree_le (s : DbState) (q : ℕ) (c : ℕ)
    (hs : ∀ j, -1 ≤ s.cid j) (j : ℕ) : -1 ≤ (assignIfFree s q c).cid j := by
  unfold assignIfFree
  by_cases h : s.cid q = -1
  · rw [if_pos h, cid_setCid]
    by_cases hjq : j = q
    · rw [if_pos hjq]; omega
    · rw [if_neg hjq]; exact hs j
  · rw [if_neg h]; exact hs j

theorem visited_markVisited (s : DbState) (q j : ℕ) :
    (markVisited s q).visited j = if j = q then true else s.visited j := rfl

theorem cid_markVisited (s : DbState) (q : ℕ) :
    (markVisited s q).cid = s.cid := rfl

theorem expandLoop_nil (c : ℕ) (s : DbState) :
    expandLoop n dist eps minPts c s [] = s := by
  rw [expandLoop]

theorem expandLoop_cons_visited (c : ℕ) (s : DbState) {q : ℕ} (rest : List ℕ)
    (hq : q < n) (hv : s.visited q = true) :
    expandLoop n dist eps minPts c s (q :: rest) =
      expandLoop n dist eps minPts c (assignIfFree s q c) rest := by
  rw [expandLoop]
  rw [dif_pos hq, dif_pos hv]

theorem expandLoop_cons_core (c : ℕ) (s : DbState) {q : ℕ} (rest : List ℕ)
    (hq : q < n) (hv : ¬ s.visited q = true)
    (hcore : minPts ≤ (regionQuery n dist eps q).length) :
    expandLoop n dist eps minPts c s (q :: rest) =
      expandLoop n dist eps minPts c (assignIfFree (markVisited s q) q c)
        (rest ++ regionQuery n dist eps q) := by
  rw [expandLoop]
  rw [dif_pos hq, dif_neg hv]
  simp only [if_pos hcore]

theorem expandLoop_cons_small (c : ℕ) (s : DbState) {q : ℕ} (rest : List ℕ)
    (hq : q < n) (hv : ¬ s.visited q = true)
    (hcore : ¬ minPts ≤ (regionQuery n dist eps q).length) :
    expandLoop n dist eps minPts c s (q :: rest) =
      expandLoop n dist eps minPts c (assignIfFree (markVisited s q) q c) rest := by
  rw [expandLoop]
  rw [dif_pos hq, dif_neg hv]
  simp only [if_neg hcore]

theorem expandLoop_cons_ge (c : ℕ) (s : DbState) {q : ℕ} (rest : List ℕ)
    (hq : ¬ q < n) :
    expandLoop n dist eps minPts c s (q :: rest) =
      expandLoop n dist eps minPts c s rest := by
  rw [expandLoop]
  rw [dif_neg hq]

theorem length_regionQuery_le (p : ℕ) :
    (regionQuery n dist eps p).length ≤ n + 1 := by
  unfold regionQuery
  rw [List.length_cons]
  exact Nat.succ_le_succ (le_trans (List.length_filter_le _ _) (by rw [List.length_range]))

theorem expandLoopFuel_eq (c : ℕ) : ∀ (fuel : ℕ) (s : DbState) (queue : List ℕ),
    unvisitedCount n s * (n + 2) + queue.length ≤ fuel →
    expandLoopFuel n dist eps minPts c fuel s queue =
      expandLoop n dist eps minPts c s queue := by
  intro fuel
  induction fuel with
  | zero =>
    intro s queue hf
    have hq : queue = [] := List.length_eq_zero.mp (by omega)
    subst hq
    rw [expandLoop_nil]
    rfl
  | succ fuel ih =>
    intro s queue hf
    match queue with
    | [] =>
      rw [expandLoop_nil]
      rfl
    | q :: rest =>
      rw [List.length_cons] at hf
      by_cases hq : q < n
      · by_cases hv : s.visited q = true
        · rw [expandLoop_cons_visited n dist eps minPts c s rest hq hv]
          show (if q < n then _ else _) = _
          rw [if_pos hq, if_pos hv]
          refine ih (assignIfFree s q c) rest ?_
          rw [unvisitedCount_assignIfFree]
          omega
        · have hu : unvisitedCount n (markVisited s q) < unvisitedCount n s :=
            unvisitedCount_markVisited_lt n s q hq (by simpa using hv)
          by_cases hcore : minPts ≤ (regionQuery n dist eps q).length
          · rw [expandLoop_cons_core n dist eps minPts c s rest hq hv hcore]
            show (if q < n then _ else _) = _
            rw [if_pos hq, if_neg hv]
            simp only [if_pos hcore]
            refine ih (assignIfFree (markVisited s q) q c) (rest ++ regionQuery n dist eps q) ?_
            rw [unvisitedCount_assignIfFree, List.length_append]
            have hlen := length_regionQuery_le n dist eps q
            have hmul : (unvisitedCount n (markVisited s q) + 1) * (n + 2) ≤
                unvisitedCount n s * (n + 2) :=
              Nat.mul_le_mul_right _ hu
            have hexp : (unvisitedCount n (markVisited s q) + 1) * (n + 2) =
                unvisitedCount n (markVisited s q) * (n + 2) + (n + 2) := by ring
            omega
          · rw [expandLoop_cons_small n dist eps minPts c s rest hq hv hcore]
            show (if q < n then _ else _) = _
            rw [if_pos hq, if_neg hv]
            simp only [if_neg hcore]
            refine ih (assignIfFree (markVisited s q) q c) rest ?_
            rw [unvisitedCount_assignIfFree]
            have hmul : (unvisitedCount n (markVisited s q) + 1) * (n + 2) ≤
                unvisitedCount n s * (n + 2) :=
              Nat.mul_le_mul_right _ hu
            have hexp : (unvisitedCount n (markVisited s q) + 1) * (n + 2) =
                unvisitedCount n (markVisited s q) * (n + 2) + (n + 2) := by ring
            omega
      · rw [expandLoop_cons_ge n dist eps minPts c s rest hq]
        show (if q < n then _ else _) = _
        rw [if_neg hq]
        exact ih s rest (by omega)

theorem expandLoop_cid_stable (c : ℕ) (s : DbState) (queue : List ℕ)
    (j : ℕ) (h : s.cid j ≠ -1) :
    (expandLoop n dist eps minPts c s queue).cid j = s.cid j := by
  induction s, queue using expandLoop.induct n dist eps minPts c with
  | case1 s =>
    rw [expandLoop_nil]
  | case2 s q rest hq hv ih =>
    rw [expandLoop_cons_visited n dist eps minPts c s rest hq hv]
    have hj : (assignIfFree s q c).cid j ≠ -1 := by
      rw [cid_assignIfFree_of_ne s q c j h]; exact h
    rw [ih hj, cid_assignIfFree_of_ne s q c j h]
  | case3 s q rest hq hv s1 nbrs hcore ih =>
    rw [expandLoop_cons_core n dist eps minPts c s rest hq hv hcore]
    have hm : s1.cid j ≠ -1 := h
    have hj : (assignIfFree s1 q c).cid j ≠ -1 := by
      rw [cid_assignIfFree_of_ne s1 q c j hm]; exact hm
    rw [ih hj, cid_assignIfFree_of_ne s1 q c j hm]
    exact rfl
  | case4 s q rest hq hv s1 nbrs hcore ih =>
    rw [expandLoop_cons_small n dist eps minPts c s rest hq hv hcore]
    have hm : s1.cid j ≠ -1 := h
    have hj : (assignIfFree s1 q c).cid j ≠ -1 := by
      rw [cid_assignIfFree_of_ne s1 q c j hm]; exact hm
    rw [ih hj, cid_assignIfFree_of_ne s1 q c j hm]
    exact rfl
  | case5 s q rest hq ih =>
    rw [expandLoop_cons_ge n dist eps minPts c s rest hq]
    exact ih h

theorem expandLoop_visited_mono (c : ℕ) (s : DbState) (queue : List ℕ)
    (j : ℕ) (h : s.visited j = true) :
    (expandLoop n dist eps minPts c s queue).visited j = true := by
  induction s, queue using expandLoop.induct n dist eps minPts c with
  | case1 s => rw [expandLoop_nil]; exact h
  | case2 s q rest hq hv ih =>
    rw [expandLoop_cons_visited n dist eps minPts c s rest hq hv]
    exact ih (by rw [visited_assignIfFree]; exact h)
  | case3 s q rest hq hv s1 nbrs hcore ih =>
    rw [expandLoop_cons_core n dist eps minPts c s rest hq hv hcore]
    refine ih ?_
    rw [visited_assignIfFree]
    show (markVisited s q).visited j = true
    rw [visited_markVisited]
    by_cases hjq : j = q
    · rw [if_pos hjq]
    · rw [if_neg hjq]; exact h
  | case4 s q rest hq hv s1 nbrs hcore ih =>
    rw [expandLoop_cons_small n dist eps minPts c s rest hq hv hcore]
    refine ih ?_
    rw [visited_assignIfFree]
    show (markVisited s q).visited j = true
    rw [visited_markVisited]
    by_cases hjq : j = q
    · rw [if_pos hjq]
    · rw [if_neg hjq]; exact h
  | case5 s q rest hq ih =>
    rw [expandLoop_cons_ge n dist eps minPts c s rest hq]
    exact ih h

theorem expandLoop_processed (c : ℕ) : ∀ (s : DbState) (queue : List ℕ),
    ∀ x ∈ queue, x < n → (expandLoop n dist eps minPts c s queue).cid x ≠ -1 := by
  intro s queue
  induction s, queue using expandLoop.induct n dist eps minPts c with
  | case1 s =>
    intro x hx
    cases hx
  | case2 s q rest hq hv ih =>
    intro x hx hxn
    rw [expandLoop_cons_visited n dist eps minPts c s rest hq hv]
    rcases List.mem_cons.mp hx with rfl | hmem
    · rw [expandLoop_cid_stable n dist eps minPts c _ rest x
        (cid_assignIfFree_self s x c)]
      exact cid_assignIfFree_self s x c
    · exact ih x hmem hxn
  | case3 s q rest hq hv s1 nbrs hcore ih =>
    intro x hx hxn
    rw [expandLoop_cons_core n dist eps minPts c s rest hq hv hcore]
    rcases List.mem_cons.mp hx with rfl | hmem
    · rw [expandLoop_cid_stable n dist eps minPts c _ _ x
        (cid_assignIfFree_self s1 x c)]
      exact cid_assignIfFree_self s1 x c
    · exact ih x (List.mem_append_left _ hmem) hxn
  | case4 s q rest hq hv s1 nbrs hcore ih =>
    intro x hx hxn
    rw [expandLoop_cons_small n dist eps minPts c s rest hq hv hcore]
    rcases List.mem_cons.mp hx with rfl | hmem
    · rw [expandLoop_cid_stable n dist eps minPts c _ rest x
        (cid_assignIfFree_self s1 x c)]
      exact cid_assignIfFree_self s1 x c
    · exact ih x hmem hxn
  | case5 s q rest hq ih =>
    intro x hx hxn
    rw [expandLoop_cons_ge n dist eps minPts c s rest hq]
    rcases List.mem_cons.mp hx with rfl | hmem
    · exact absurd hxn hq
    · exact ih x hmem hxn

theorem expandLoop_sound (c : ℕ) : ∀ (s : DbState) (queue : List ℕ),
    (∀ j, s.cid j ≠ -1 → covered n dist eps minPts j) →
    (∀ x ∈ queue, covered n dist eps minPts x) →
    ∀ j, (expandLoop n dist eps minPts c s queue).cid j ≠ -1 →
      covered n dist eps minPts j := by
  intro s queue
  induction s, queue using expandLoop.induct n dist eps minPts c with
  | case1 s =>
    intro hs _ j hj
    rw [expandLoop_nil] at hj
    exact hs j hj
  | case2 s q rest hq hv ih =>
    intro hs hqueue j hj
    rw [expandLoop_cons_visited n dist eps minPts c s rest hq hv] at hj
    refine ih ?_ ?_ j hj
    · intro j' hj'
      rcases cid_assignIfFree_ne_cases s q c j' hj' with h | rfl
      · exact hs j' h
      · exact hqueue j' (List.mem_cons_self _ _)
    · exact fun x hx => hqueue x (List.mem_cons_of_mem _ hx)
  | case3 s q rest hq hv s1 nbrs hcore ih =>
    intro hs hqueue j hj
    rw [expandLoop_cons_core n dist eps minPts c s rest hq hv hcore] at hj
    refine ih ?_ ?_ j hj
    · intro j' hj'
      rcases cid_assignIfFree_ne_cases s1 q c j' hj' with h | rfl
      · exact hs j' h
      · exact hqueue j' (List.mem_cons_self _ _)
    · intro x hx
      rcases List.mem_append.mp hx with hx | hx
      · exact hqueue x (List.mem_cons_of_mem _ hx)
      · exact ⟨q, hq, hcore, hx⟩
  | case4 s q rest hq hv s1 nbrs hcore ih =>
    intro hs hqueue j hj
    rw [expandLoop_cons_small n dist eps minPts c s rest hq hv hcore] at hj
    refine ih ?_ ?_ j hj
    · intro j' hj'
      rcases cid_assignIfFree_ne_cases s1 q c j' hj' with h | rfl
      · exact hs j' h
      · exact hqueue j' (List.mem_cons_self _ _)
    · exact fun x hx => hqueue x (List.mem_cons_of_mem _ hx)
  | case5 s q rest hq ih =>
    intro hs hqueue j hj
    rw [expandLoop_cons_ge n dist eps minPts c s rest hq] at hj
    exact ih hs (fun x hx => hqueue x (List.mem_cons_of_mem _ hx)) j hj

theorem expandLoop_assigned_visited (c : ℕ) : ∀ (s : DbState) (queue : List ℕ),
    (∀ j, s.cid j ≠ -1 → s.visited j = true) →
    ∀ j, (expandLoop n dist eps minPts c s queue).cid j ≠ -1 →
      (expandLoop n dist eps minPts c s queue).visited j = true := by
  intro s queue
  induction s, queue using expandLoop.induct n dist eps minPts c with
  | case1 s =>
    intro hs j hj
    rw [expandLoop_nil] at hj ⊢
    exact hs j hj
  | case2 s q rest hq hv ih =>
    intro hs j hj
    rw [expandLoop_cons_visited n dist eps minPts c s rest hq hv] at hj ⊢
    refine ih ?_ j hj
    intro j' hj'
    rw [visited_assignIfFree]
    rcases cid_assignIfFree_ne_cases s q c j' hj' with h | rfl
    · exact hs j' h
    · exact hv
  | case3 s q rest hq hv s1 nbrs hcore ih =>
    intro hs j hj
    rw [expandLoop_cons_core n dist eps minPts c s rest hq hv hcore] at hj ⊢
    refine ih ?_ j hj
    intro j' hj'
    rw [visited_assignIfFree]
    show (markVisited s q).visited j' = true
    rw [visited_markVisited]
    by_cases hjq : j' = q
    · rw [if_pos hjq]
    · rw [if_neg hjq]
      rcases cid_assignIfFree_ne_cases s1 q c j' hj' with h | rfl
      · exact hs j' h
      · exact absurd rfl hjq
  | case4 s q rest hq hv s1 nbrs hcore ih =>
    intro hs j hj
    rw [expandLoop_cons_small n dist eps minPts c s rest hq hv hcore] at hj ⊢
    refine ih ?_ j hj
    intro j' hj'
    rw [visited_assignIfFree]
    show (markVisited s q).visited j' = true
    rw [visited_markVisited]
    by_cases hjq : j' = q
    · rw [if_pos hjq]
    · rw [if_neg hjq]
      rcases cid_assignIfFree_ne_cases s1 q c j' hj' with h | rfl
      · exact hs j' h
      · exact absurd rfl hjq
  | case5 s q rest hq ih =>
    intro hs j hj
    rw [expandLoop_cons_ge n dist eps minPts c s rest hq] at hj ⊢
    exact ih hs j hj

theorem expandLoop_cid_lt (c : ℕ) {B : ℤ} (hc : (c : ℤ) < B) :
    ∀ (s : DbState) (queue : List ℕ),
    (∀ j, s.cid j < B) →
    ∀ j, (expandLoop n dist eps minPts c s queue).cid j < B := by
  intro s queue
  induction s, queue using expandLoop.induct n dist eps minPts c with
  | case1 s =>
    intro hs j
    rw [expandLoop_nil]
    exact hs j
  | case2 s q rest hq hv ih =>
    intro hs j
    rw [expandLoop_cons_visited n dist eps minPts c s rest hq hv]
    exact ih (cid_assignIfFree_lt s q c hs hc) j
  | case3 s q rest hq hv s1 nbrs hcore ih =>
    intro hs j
    rw [expandLoop_cons_core n dist eps minPts c s rest hq hv hcore]
    exact ih (cid_assignIfFree_lt s1 q c hs hc) j
  | case4 s q rest hq hv s1 nbrs hcore ih =>
    intro hs j
    rw [expandLoop_cons_small n dist eps minPts c s rest hq hv hcore]
    exact ih (cid_assignIfFree_lt s1 q c hs hc) j
  | case5 s q rest hq ih =>
    intro hs j
    rw [expandLoop_cons_ge n dist eps minPts c s rest hq]
    exact ih hs j

theorem expandLoop_cid_le (c : ℕ) : ∀ (s : DbState) (queue : List ℕ),
    (∀ j, -1 ≤ s.cid j) →
    ∀ j, -1 ≤ (expandLoop n dist eps minPts c s queue).cid j := by
  intro s queue
  induction s, queue using expandLoop.induct n dist eps minPts c with
  | case1 s =>
    intro hs j
    rw [expandLoop_nil]
    exact hs j
  | case2 s q rest hq hv ih =>
    intro hs j
    rw [expandLoop_cons_visited n dist eps minPts c s rest hq hv]
    exact ih (cid_assignIfFree_le s q c hs) j
  | case3 s q rest hq hv s1 nbrs hcore ih =>
    intro hs j
    rw [expandLoop_cons_core n dist eps minPts c s rest hq hv hcore]
    exact ih (cid_assignIfFree_le s1 q c hs) j
  | case4 s q rest hq hv s1 nbrs hcore ih =>
    intro hs j
    rw [expandLoop_cons_small n dist eps minPts c s rest hq hv hcore]
    exact ih (cid_assignIfFree_le s1 q c hs) j
  | case5 s q rest hq ih =>
    intro hs j
    rw [expandLoop_cons_ge n dist eps minPts c s rest hq]
    exact ih hs j

theorem expandLoop_complete (c : ℕ) : ∀ (s : DbState) (queue : List ℕ),
    (∀ c', c' < n → isCore n dist eps minPts c' → s.visited c' = true →
      ∀ j ∈ regionQuery n dist eps c', s.cid j ≠ -1 ∨ j ∈ queue) →
    ∀ c', c' < n → isCore n dist eps minPts c' →
      (expandLoop n dist eps minPts c s queue).visited c' = true →
      ∀ j ∈ regionQuery n dist eps c',
        (expandLoop n dist eps minPts c s queue).cid j ≠ -1 := by
  intro s queue
  induction s, queue using expandLoop.induct n dist eps minPts c with
  | case1 s =>
    intro hΦ c' hc' hcore hvis j hj
    rw [expandLoop_nil] at hvis ⊢
    rcases hΦ c' hc' hcore hvis j hj with h | h
    · exact h
    · cases h
  | case2 s q rest hq hv ih =>
    intro hΦ c' hc' hcore hvis j hj
    rw [expandLoop_cons_visited n dist eps minPts c s rest hq hv] at hvis ⊢
    refine ih ?_ c' hc' hcore hvis j hj
    intro d hd hdcore hdvis x hx
    rw [visited_assignIfFree] at hdvis
    rcases hΦ d hd hdcore hdvis x hx with h | h
    · left
      rw [cid_assignIfFree_of_ne s q c x h]
      exact h
    · rcases List.mem_cons.mp h with rfl | hmem
      · exact Or.inl (cid_assignIfFree_self s x c)
      · exact Or.inr hmem
  | case3 s q rest hq hv s1 nbrs hcore ih =>
    intro hΦ c' hc' hcore' hvis j hj
    rw [expandLoop_cons_core n dist eps minPts c s rest hq hv hcore] at hvis ⊢
    refine ih ?_ c' hc' hcore' hvis j hj
    intro d hd hdcore hdvis x hx
    rw [visited_assignIfFree] at hdvis
    by_cases hdq : d = q
    · right
      subst hdq
      exact List.mem_append_right _ hx
    · have hdvis' : s.visited d = true := by
        have : (markVisited s q).visited d = true := hdvis
        rw [visited_markVisited, if_neg hdq] at this
        exact this
      rcases hΦ d hd hdcore hdvis' x hx with h | h
      · left
        have hx1 : s1.cid x ≠ -1 := h
        rw [cid_assignIfFree_of_ne s1 q c x hx1]
        exact hx1
      · rcases List.mem_cons.mp h with rfl | hmem
        · exact Or.inl (cid_assignIfFree_self s1 x c)
        · exact Or.inr (List.mem_append_left _ hmem)
  | case4 s q rest hq hv s1 nbrs hcore ih =>
    intro hΦ c' hc' hcore' hvis j hj
    rw [expandLoop_cons_small n dist eps minPts c s rest hq hv hcore] at hvis ⊢
    refine ih ?_ c' hc' hcore' hvis j hj
    intro d hd hdcore hdvis x hx
    rw [visited_assignIfFree] at hdvis
    by_cases hdq : d = q
    · subst hdq
      exact absurd hdcore hcore
    · have hdvis' : s.visited d = true := by
        have : (markVisited s q).visited d = true := hdvis
        rw [visited_markVisited, if_neg hdq] at this
        exact this
      rcases hΦ d hd hdcore hdvis' x hx with h | h
      · left
        have hx1 : s1.cid x ≠ -1 := h
        rw [cid_assignIfFree_of_ne s1 q c x hx1]
        exact hx1
      · rcases List.mem_cons.mp h with rfl | hmem
        · exact Or.inl (cid_assignIfFree_self s1 x c)
        · exact Or.inr hmem
  | case5 s q rest hq ih =>
    intro hΦ c' hc' hcore hvis j hj
    rw [expandLoop_cons_ge n dist eps minPts c s rest hq] at hvis ⊢
    refine ih ?_ c' hc' hcore hvis j hj
    intro d hd hdcore hdvis x hx
    rcases hΦ d hd hdcore hdvis x hx with h | h
    · exact Or.inl h
    · rcases List.mem_cons.mp h with rfl | hmem
      · exact absurd (mem_regionQuery_lt n dist eps hd hx) hq
      · exact Or.inr hmem

theorem dbscanLoop_nil (s : DbState) (counter : ℕ) :
    dbscanLoop n dist eps minPts s counter [] = (s, counter) := rfl

theorem dbscanLoop_cons_skip (s : DbState) (counter : ℕ) {i : ℕ} (rest : List ℕ)
    (h : s.visited i = true) :
    dbscanLoop n dist eps minPts s counter (i :: rest) =
      dbscanLoop n dist eps minPts s counter rest := by
  rw [dbscanLoop]
  rw [if_pos h]

theorem dbscanLoop_cons_noise (s : DbState) (counter : ℕ) {i : ℕ} (rest : List ℕ)
    (h : ¬ s.visited i = true)
    (hsmall : (regionQuery n dist eps i).length < minPts) :
    dbscanLoop n dist eps minPts s counter (i :: rest) =
      dbscanLoop n dist eps minPts (setCid (markVisited s i) i (-1)) counter rest := by
  rw [dbscanLoop]
  rw [if_neg h]
  simp only [if_pos hsmall]

theorem dbscanLoop_cons_cluster (s : DbState) (counter : ℕ) {i : ℕ} (rest : List ℕ)
    (h : ¬ s.visited i = true)
    (hcore : ¬ (regionQuery n dist eps i).length < minPts) :
    dbscanLoop n dist eps minPts s counter (i :: rest) =
      dbscanLoop n dist eps minPts
        (expandCluster n dist eps minPts i (regionQuery n dist eps i) counter
          (markVisited s i)) (counter + 1) rest := by
  rw [dbscanLoop]
  rw [if_neg h]
  simp only [if_neg hcore]

theorem dbscanLoopE_eq : ∀ (idx : List ℕ) (s : DbState) (counter : ℕ),
    dbscanLoopE n dist eps minPts s counter idx =
      dbscanLoop n dist eps minPts s counter idx := by
  intro idx
  induction idx with
  | nil =>
    intro s counter
    rfl
  | cons i rest ih =>
    intro s counter
    by_cases hvis : s.visited i = true
    · rw [dbscanLoop_cons_skip n dist eps minPts s counter rest hvis]
      show (if s.visited i = true then _ else _) = _
      rw [if_pos hvis]
      exact ih s counter
    · by_cases hsmall : (regionQuery n dist eps i).length < minPts
      · rw [dbscanLoop_cons_noise n dist eps minPts s counter rest hvis hsmall]
        show (if s.visited i = true then _ else _) = _
        rw [if_neg hvis]
        simp only [if_pos hsmall]
        exact ih _ counter
      · rw [dbscanLoop_cons_cluster n dist eps minPts s counter rest hvis hsmall]
        show (if s.visited i = true then _ else _) = _
        rw [if_neg hvis]
        simp only [if_neg hsmall]
        rw [expandLoopFuel_eq n dist eps minPts counter _ _ _ (le_refl _)]
        exact ih _ (counter + 1)

theorem dbscanCoreE_eq :
    dbscanCoreE n dist eps minPts = dbscanCore n dist eps minPts := by
  unfold dbscanCoreE dbscanCore
  rw [dbscanLoopE_eq]

/-- The state invariant the main loop of `dbscan` maintains: every assigned
point is covered by a core point, assigned implies visited, cluster ids lie
in `[-1, counter)`, and every region of a visited core point is fully
assigned. -/
def loopInv (s : DbState) (counter : ℕ) : Prop :=
  (∀ j, s.cid j ≠ -1 → covered n dist eps minPts j) ∧
  (∀ j, s.cid j ≠ -1 → s.visited j = true) ∧
  (∀ j, s.cid j < (counter : ℤ)) ∧
  (∀ j, -1 ≤ s.cid j) ∧
  (∀ c', c' < n → isCore n dist eps minPts c' → s.visited c' = true →
    ∀ j ∈ regionQuery n dist eps c', s.cid j ≠ -1)

theorem dbscanLoop_inv : ∀ (idx : List ℕ) (s : DbState) (counter : ℕ),
    (∀ i ∈ idx, i < n) →
    loopInv n dist eps minPts s counter →
    loopInv n dist eps minPts (dbscanLoop n dist eps minPts s counter idx).1
      (dbscanLoop n dist eps minPts s counter idx).2 := by
  intro idx
  induction idx with
  | nil =>
    intro s counter _ hinv
    rw [dbscanLoop_nil]
    exact hinv
  | cons i rest ih =>
    intro s counter hidx hinv
    obtain ⟨ha, hb, hc, hd, he⟩ := hinv
    have hin : i < n := hidx i (List.mem_cons_self _ _)
    by_cases hvis : s.visited i = true
    · rw [dbscanLoop_cons_skip n dist eps minPts s counter rest hvis]
      exact ih s counter (fun x hx => hidx x (List.mem_cons_of_mem _ hx)) ⟨ha, hb, hc, hd, he⟩
    · by_cases hsmall : (regionQuery n dist eps i).length < minPts
      · rw [dbscanLoop_cons_noise n dist eps minPts s counter rest hvis hsmall]
        refine ih _ counter (fun x hx => hidx x (List.mem_cons_of_mem _ hx)) ?_
        have hcid : ∀ j, (setCid (markVisited s i) i (-1)).cid j =
            if j = i then -1 else s.cid j := fun j => rfl
        have hvv : ∀ j, (setCid (markVisited s i) i (-1)).visited j =
            if j = i then true else s.visited j := fun j => rfl
        refine ⟨?_, ?_, ?_, ?_, ?_⟩
        · intro j hj
          rw [hcid j] at hj
          by_cases hji : j = i
          · rw [if_pos hji] at hj
            exact absurd rfl hj
          · rw [if_neg hji] at hj
            exact ha j hj
        · intro j hj
          rw [hcid j] at hj
          rw [hvv j]
          by_cases hji : j = i
          · rw [if_pos hji]
          · rw [if_neg hji] at hj ⊢
            exact hb j hj
        · intro j
          rw [hcid j]
          by_cases hji : j = i
          · rw [if_pos hji]
            omega
          · rw [if_neg hji]
            exact hc j
        · intro j
          rw [hcid j]
          by_cases hji : j = i
          · rw [if_pos hji]
          · rw [if_neg hji]
            exact hd j
        · intro c' hc' hcore hvisc j hj
          rw [hvv c'] at hvisc
          by_cases hci : c' = i
          · exfalso
            apply hcore.not_lt
            subst hci
            exact hsmall
          · rw [if_neg hci] at hvisc
            have hjne := he c' hc' hcore hvisc j hj
            rw [hcid j]
            by_cases hji : j = i
            · subst hji
              exact absurd (hb j hjne) hvis
            · rw [if_neg hji]
              exact hjne
      · rw [dbscanLoop_cons_cluster n dist eps minPts s counter rest hvis hsmall]
        refine ih _ (counter + 1) (fun x hx => hidx x (List.mem_cons_of_mem _ hx)) ?_
        have hicore : isCore n dist eps minPts i := le_of_not_lt hsmall
        have hcov : covered n dist eps minPts i :=
          ⟨i, hin, hicore, self_mem_regionQuery n dist eps i⟩
        have hcid2 : ∀ j, (setCid (markVisited s i) i (counter : ℤ)).cid j =
            if j = i then (counter : ℤ) else s.cid j := fun j => rfl
        have hvv2 : ∀ j, (setCid (markVisited s i) i (counter : ℤ)).visited j =
            if j = i then true else s.visited j := fun j => rfl
        show loopInv n dist eps minPts
          (expandLoop n dist eps minPts counter
            (setCid (markVisited s i) i (counter : ℤ)) (regionQuery n dist eps i)) (counter + 1)
        refine ⟨?_, ?_, ?_, ?_, ?_⟩
        · refine expandLoop_sound n dist eps minPts counter _ _ ?_ ?_
          · intro j hj
            rw [hcid2 j] at hj
            by_cases hji : j = i
            · subst hji
              exact hcov
            · rw [if_neg hji] at hj
              exact ha j hj
          · exact fun x hx => ⟨i, hin, hicore, hx⟩
        · refine expandLoop_assigned_visited n dist eps minPts counter _ _ ?_
          intro j hj
          rw [hcid2 j] at hj
          rw [hvv2 j]
          by_cases hji : j = i
          · rw [if_pos hji]
          · rw [if_neg hji] at hj ⊢
            exact hb j hj
        · refine expandLoop_cid_lt n dist eps minPts counter (by omega) _ _ ?_
          intro j
          rw [hcid2 j]
          by_cases hji : j = i
          · rw [if_pos hji]
            omega
          · rw [if_neg hji]
            have := hc j
            omega
        · refine expandLoop_cid_le n dist eps minPts counter _ _ ?_
          intro j
          rw [hcid2 j]
          by_cases hji : j = i
          · rw [if_pos hji]
            omega
          · rw [if_neg hji]
            exact hd j
        · refine expandLoop_complete n dist eps minPts counter _ _ ?_
          intro d hd' hdcore hdvis x hx
          rw [hvv2 d] at hdvis
          by_cases hdi : d = i
          · subst hdi
            exact Or.inr hx
          · rw [if_neg hdi] at hdvis
            have hxne := he d hd' hdcore hdvis x hx
            left
            rw [hcid2 x]
            by_cases hxi : x = i
            · subst hxi
              exact absurd (hb x hxne) hvis
            · rw [if_neg hxi]
              exact hxne

theorem dbscanLoop_visited_mono : ∀ (idx : List ℕ) (s : DbState) (counter : ℕ)
    (j : ℕ), s.visited j = true →
    (dbscanLoop n dist eps minPts s counter idx).1.visited j = true := by
  intro idx
  induction idx with
  | nil =>
    intro s counter j h
    rw [dbscanLoop_nil]
    exact h
  | cons i rest ih =>
    intro s counter j h
    by_cases hvis : s.visited i = true
    · rw [dbscanLoop_cons_skip n dist eps minPts s counter rest hvis]
      exact ih s counter j h
    · by_cases hsmall : (regionQuery n dist eps i).length < minPts
      · rw [dbscanLoop_cons_noise n dist eps minPts s counter rest hvis hsmall]
        refine ih _ counter j ?_
        show (if j = i then true else s.visited j) = true
        by_cases hji : j = i
        · rw [if_pos hji]
        · rw [if_neg hji]
          exact h
      · rw [dbscanLoop_cons_cluster n dist eps minPts s counter rest hvis hsmall]
        refine ih _ (counter + 1) j ?_
        show (expandLoop n dist eps minPts counter
          (setCid (markVisited s i) i (counter : ℤ)) (regionQuery n dist eps i)).visited j = true
        refine expandLoop_visited_mono n dist eps minPts counter _ _ j ?_
        show (if j = i then true else s.visited j) = true
        by_cases hji : j = i
        · rw [if_pos hji]
        · rw [if_neg hji]
          exact h

theorem dbscanLoop_visits : ∀ (idx : List ℕ) (s : DbState) (counter : ℕ),
    ∀ i ∈ idx, (dbscanLoop n dist eps minPts s counter idx).1.visited i = true := by
  intro idx
  induction idx with
  | nil =>
    intro s counter i hi
    cases hi
  | cons i rest ih =>
    intro s counter x hx
    by_cases hvis : s.visited i = true
    · rw [dbscanLoop_cons_skip n dist eps minPts s counter rest hvis]
      rcases List.mem_cons.mp hx with rfl | hmem
      · exact dbscanLoop_visited_mono n dist eps minPts rest s counter x hvis
      · exact ih s counter x hmem
    · by_cases hsmall : (regionQuery n dist eps i).length < minPts
      · rw [dbscanLoop_cons_noise n dist eps minPts s counter rest hvis hsmall]
        rcases List.mem_cons.mp hx with rfl | hmem
        · refine dbscanLoop_visited_mono n dist eps minPts rest _ counter x ?_
          show (if x = x then true else s.visited x) = true
          rw [if_pos rfl]
        · exact ih _ counter x hmem
      · rw [dbscanLoop_cons_cluster n dist eps minPts s counter rest hvis hsmall]
        rcases List.mem_cons.mp hx with rfl | hmem
        · refine dbscanLoop_visited_mono n dist eps minPts rest _ (counter + 1) x ?_
          show (expandLoop n dist eps minPts counter
            (setCid (markVisited s x) x (counter : ℤ))
            (regionQuery n dist eps x)).visited x = true
          refine expandLoop_visited_mono n dist eps minPts counter _ _ x ?_
          show (if x = x then true else s.visited x) = true
          rw [if_pos rfl]
        · exact ih _ (counter + 1) x hmem

/-- The final state and cluster-id counter of a `dbscan` run. -/
def finalState : DbState × ℕ :=
  dbscanLoop n dist eps minPts ⟨fun _ => false, fun _ => -1⟩ 0 (List.range n)

theorem dbscanCore_eq : dbscanCore n dist eps minPts =
    { clusters := ((List.range (finalState n dist eps minPts).2).map
        (fun (c : ℕ) => (List.range n).filter
          (fun i => decide ((finalState n dist eps minPts).1.cid i = (c : ℤ))))).filter
        (fun cl => decide (0 < cl.length)),
      noise := (List.range n).filter
        (fun i => decide ((finalState n dist eps minPts).1.cid i = -1)) } := rfl

theorem finalState_inv :
    loopInv n dist eps minPts (finalState n dist eps minPts).1
      (finalState n dist eps minPts).2 := by
  refine dbscanLoop_inv n dist eps minPts (List.range n) _ 0
    (fun i hi => List.mem_range.mp hi) ?_
  refine ⟨?_, ?_, ?_, ?_, ?_⟩
  · exact fun j h => absurd rfl h
  · exact fun j h => absurd rfl h
  · intro j
    show (-1 : ℤ) < 0
    omega
  · intro j
    exact le_refl _
  · intro c' _ _ hvis
    exact absurd hvis (by simp)

theorem finalState_visited (i : ℕ) (hi : i < n) :
    (finalState n dist eps minPts).1.visited i = true :=
  dbscanLoop_visits n dist eps minPts (List.range n) _ 0 i (List.mem_range.mpr hi)

/-- A point ends with a cluster id exactly when some core point's region
contains it. -/
theorem finalState_cid_ne_iff (i : ℕ) (hi : i < n) :
    (finalState n dist eps minPts).1.cid i ≠ -1 ↔ covered n dist eps minPts i := by
  obtain ⟨ha, _, _, _, he⟩ := finalState_inv n dist eps minPts
  constructor
  · exact ha i
  · rintro ⟨c, hc, hcore, hmem⟩
    exact he c hc hcore (finalState_visited n dist eps minPts c hc) i hmem

/-- Noise membership in a `dbscan` result: exactly the in-range points not
covered by any core point. -/
theorem mem_noise_iff (i : ℕ) :
    i ∈ (dbscanCore n dist eps minPts).noise ↔
      i < n ∧ ¬ covered n dist eps minPts i := by
  rw [dbscanCore_eq]
  simp only [List.mem_filter, List.mem_range, decide_eq_true_iff]
  constructor
  · rintro ⟨hi, hcid⟩
    refine ⟨hi, ?_⟩
    intro hcov
    exact (finalState_cid_ne_iff n dist eps minPts i hi).mpr hcov hcid
  · rintro ⟨hi, hcov⟩
    refine ⟨hi, ?_⟩
    by_contra hne
    exact hcov ((finalState_cid_ne_iff n dist eps minPts i hi).mp hne)

theorem count_filter_range (p : ℕ → Bool) (m i : ℕ) :
    ((List.range m).filter p).count i = if i < m ∧ p i = true then 1 else 0 := by
  by_cases h : i < m ∧ p i = true
  · rw [if_pos h]
    exact List.count_eq_one_of_mem (List.Nodup.filter p (List.nodup_range m))
      (List.mem_filter.mpr ⟨List.mem_range.mpr h.1, h.2⟩)
  · rw [if_neg h]
    rw [List.count_eq_zero]
    intro hmem
    obtain ⟨h1, h2⟩ := List.mem_filter.mp hmem
    exact h ⟨List.mem_range.mp h1, h2⟩

theorem flatten_filter_pos_count (i : ℕ) : ∀ L : List (List ℕ),
    ((L.filter (fun cl => decide (0 < cl.length))).flatten).count i =
      (L.flatten).count i := by
  intro L
  induction L with
  | nil => rfl
  | cons a t ih =>
    by_cases h : 0 < a.length
    · rw [List.filter_cons_of_pos (by simpa using h)]
      rw [List.flatten_cons, List.flatten_cons, List.count_append, List.count_append, ih]
    · rw [List.filter_cons_of_neg (by simpa using h)]
      have ha : a = [] := List.length_eq_zero.mp (by omega)
      rw [List.flatten_cons, ha, List.nil_append, ih]

theorem sum_ite_eq_zero_of_ne (v : ℤ) : ∀ l : List ℕ,
    (∀ c ∈ l, v ≠ (c : ℤ)) →
    (l.map (fun (c : ℕ) => if v = (c : ℤ) then 1 else 0)).sum = 0 := by
  intro l
  induction l with
  | nil => intro _; rfl
  | cons a t ih =>
    intro h
    rw [List.map_cons, List.sum_cons, if_neg (h a (List.mem_cons_self _ _)),
      ih (fun c hc => h c (List.mem_cons_of_mem _ hc))]

theorem sum_ite_range_of_lt (v : ℤ) (h0 : 0 ≤ v) : ∀ K : ℕ, v < (K : ℤ) →
    (((List.range K).map (fun (c : ℕ) => if v = (c : ℤ) then 1 else 0)).sum : ℕ) = 1 := by
  intro K
  induction K with
  | zero => intro h; omega
  | succ K ih =>
    intro hK
    rw [List.range_succ, List.map_append, List.sum_append]
    by_cases hv : v = (K : ℤ)
    · rw [sum_ite_eq_zero_of_ne v (List.range K) ?_]
      · simp [hv]
      · intro c hc
        have := List.mem_range.mp hc
        omega
    · rw [ih (by omega)]
      simp [hv]

theorem sum_ite_range_neg (v : ℤ) (hv : v = -1) (K : ℕ) :
    (((List.range K).map (fun (c : ℕ) => if v = (c : ℤ) then 1 else 0)).sum : ℕ) = 0 := by
  refine sum_ite_eq_zero_of_ne v (List.range K) ?_
  intro c _
  omega

/-- Partition invariant of the raw clustering: every in-range point index
occurs exactly once across the noise list and the flattened cluster lists. -/
theorem dbscanCore_count (i : ℕ) (hi : i < n) :
    ((dbscanCore n dist eps minPts).noise ++
      (dbscanCore n dist eps minPts).clusters.flatten).count i = 1 := by
  obtain ⟨_, _, hlt, hge, _⟩ := finalState_inv n dist eps minPts
  rw [dbscanCore_eq, List.count_append]
  rw [flatten_filter_pos_count]
  rw [List.count_flatten, List.map_map]
  have hmap : ((List.range (finalState n dist eps minPts).2).map
      (List.count i ∘ fun (c : ℕ) => (List.range n).filter
        (fun x => decide ((finalState n dist eps minPts).1.cid x = (c : ℤ))))) =
      ((List.range (finalState n dist eps minPts).2).map
        (fun (c : ℕ) => if (finalState n dist eps minPts).1.cid i = (c : ℤ) then 1 else 0)) := by
    refine List.map_congr_left ?_
    intro c _
    show ((List.range n).filter
      (fun x => decide ((finalState n dist eps minPts).1.cid x = (c : ℤ)))).count i = _
    rw [count_filter_range]
    by_cases h : (finalState n dist eps minPts).1.cid i = (c : ℤ)
    · rw [if_pos ⟨hi, by simpa using h⟩, if_pos h]
    · rw [if_neg ?_, if_neg h]
      rintro ⟨_, hd⟩
      exact h (by simpa using hd)
  rw [hmap]
  rw [count_filter_range]
  by_cases hcid : (finalState n dist eps minPts).1.cid i = -1
  · rw [if_pos ⟨hi, by simpa using hcid⟩]
    rw [sum_ite_range_neg _ hcid]
  · rw [if_neg ?_]
    · rw [sum_ite_range_of_lt _ (by have := hge i; omega) _ (hlt i)]
    · rintro ⟨_, hd⟩
      exact hcid (by simpa using hd)

/-- No empty cluster survives the final `filter (length > 0)`. -/
theorem dbscanCore_clusters_ne_nil :
    ∀ cl ∈ (dbscanCore n dist eps minPts).clusters, cl ≠ [] := by
  intro cl hcl
  rw [dbscanCore_eq] at hcl
  have := (List.mem_filter.mp hcl).2
  intro hnil
  subst hnil
  simp at this

/-- Every index in the result is an index of the input. -/
theorem dbscanCore_mem_lt :
    ∀ x ∈ (dbscanCore n dist eps minPts).noise ++
      (dbscanCore n dist eps minPts).clusters.flatten, x < n := by
  intro x hx
  rw [dbscanCore_eq] at hx
  rcases List.mem_append.mp hx with h | h
  · exact List.mem_range.mp (List.mem_filter.mp h).1
  · obtain ⟨cl, hcl, hxcl⟩ := List.mem_flatten.mp h
    have hcl' := (List.mem_filter.mp hcl).1
    obtain ⟨c, _, hc⟩ := List.mem_map.mp hcl'
    subst hc
    exact List.mem_range.mp (List.mem_filter.mp hxcl).1

end DbscanLemmas

theorem dbscanE_eq (sq : ℚ → ℚ) (embeddings : List (List ℚ)) (eps : ℚ)
    (minPts : ℕ) : dbscanE sq embeddings eps minPts = dbscan sq embeddings eps minPts := by
  unfold dbscanE dbscan
  rw [dbscanCoreE_eq]

/-- Two point indices land in one common returned cluster. -/
def sameCluster (r : ClusterResult) (i j : ℕ) : Prop :=
  ∃ cl ∈ r.clusters, i ∈ cl ∧ j ∈ cl

/-- The input list reordered by an index map: entry `k` of the permuted
list is entry `σ k` of the original. -/
def permuted (σ : ℕ → ℕ) (l : List (List ℚ)) : List (List ℚ) :=
  (List.range l.length).map (fun k => l.getD (σ k) [])

theorem length_permuted (σ : ℕ → ℕ) (l : List (List ℚ)) :
    (permuted σ l).length = l.length := by
  simp [permuted]

theorem getD_permuted (σ : ℕ → ℕ) (l : List (List ℚ)) {k : ℕ}
    (hk : k < l.length) : (permuted σ l).getD k [] = l.getD (σ k) [] := by
  unfold permuted
  rw [List.getD_eq_getElem?_getD, List.getElem?_map, List.getElem?_range hk]
  rfl

theorem distOf_permuted (sq : ℚ → ℚ) (σ : ℕ → ℕ) (e : List (List ℚ)) {i j : ℕ}
    (hi : i < e.length) (hj : j < e.length) :
    distOf sq (permuted σ e) i j = distOf sq e (σ i) (σ j) := by
  unfold distOf
  rw [getD_permuted σ e hi, getD_permuted σ e hj]

section PermTransfer

variable {n : ℕ} {σ : ℕ → ℕ}

theorem perm_maps_lt (hperm : ((List.range n).map σ).Perm (List.range n))
    {k : ℕ} (hk : k < n) : σ k < n := by
  have : σ k ∈ (List.range n).map σ := List.mem_map_of_mem σ (List.mem_range.mpr hk)
  exact List.mem_range.mp (hperm.mem_iff.mp this)

theorem perm_inj (hperm : ((List.range n).map σ).Perm (List.range n))
    {x y : ℕ} (hx : x < n) (hy : y < n) (h : σ x = σ y) : x = y := by
  have hnd : ((List.range n).map σ).Nodup := hperm.nodup_iff.mpr (List.nodup_range n)
  exact List.inj_on_of_nodup_map hnd (List.mem_range.mpr hx) (List.mem_range.mpr hy) h

theorem perm_surj (hperm : ((List.range n).map σ).Perm (List.range n))
    {m : ℕ} (hm : m < n) : ∃ k, k < n ∧ σ k = m := by
  have : m ∈ (List.range n).map σ := hperm.mem_iff.mpr (List.mem_range.mpr hm)
  obtain ⟨k, hk, he⟩ := List.mem_map.mp this
  exact ⟨k, List.mem_range.mp hk, he⟩

theorem perm_countP (hperm : ((List.range n).map σ).Perm (List.range n))
    (p : ℕ → Bool) :
    (List.range n).countP p = (List.range n).countP (fun x => p (σ x)) := by
  rw [← hperm.countP_eq p, List.countP_map]
  rfl

end PermTransfer

section NoisePerm

variable (sq : ℚ → ℚ) (e : List (List ℚ)) (eps : ℚ) (minPts : ℕ) (σ : ℕ → ℕ)

theorem regionQuery_length_permuted
    (hperm : ((List.range e.length).map σ).Perm (List.range e.length))
    {c : ℕ} (hc : c < e.length) :
    (regionQuery e.length (distOf sq (permuted σ e)) eps c).length =
      (regionQuery e.length (distOf sq e) eps (σ c)).length := by
  unfold regionQuery
  rw [List.length_cons, List.length_cons]
  rw [← List.countP_eq_length_filter, ← List.countP_eq_length_filter]
  conv_rhs => rw [perm_countP hperm]
  refine congrArg (· + 1) (List.countP_congr ?_)
  intro x hx
  have hxn : x < e.length := List.mem_range.mp hx
  simp only [decide_eq_true_eq]
  rw [distOf_permuted sq σ e hc hxn]
  constructor
  · rintro ⟨hne, hd⟩
    exact ⟨fun h => hne (perm_inj hperm hxn hc h), hd⟩
  · rintro ⟨hne, hd⟩
    exact ⟨fun h => hne (congrArg σ h), hd⟩

theorem mem_regionQuery_permuted
    (hperm : ((List.range e.length).map σ).Perm (List.range e.length))
    {c j : ℕ} (hc : c < e.length) (hj : j < e.length) :
    (j ∈ regionQuery e.length (distOf sq (permuted σ e)) eps c ↔
      σ j ∈ regionQuery e.length (distOf sq e) eps (σ c)) := by
  rw [mem_regionQuery, mem_regionQuery]
  constructor
  · rintro (rfl | ⟨_, hne, hd⟩)
    · exact Or.inl rfl
    · refine Or.inr ⟨perm_maps_lt hperm hj, fun h => hne (perm_inj hperm hj hc h), ?_⟩
      rw [← distOf_permuted sq σ e hc hj]
      exact hd
  · rintro (he | ⟨_, hne, hd⟩)
    · exact Or.inl (perm_inj hperm hj hc he)
    · refine Or.inr ⟨hj, fun h => hne (congrArg σ h), ?_⟩
      rw [distOf_permuted sq σ e hc hj]
      exact hd

theorem covered_permuted
    (hperm : ((List.range e.length).map σ).Perm (List.range e.length))
    {j : ℕ} (hj : j < e.length) :
    (covered e.length (distOf sq (permuted σ e)) eps minPts j ↔
      covered e.length (distOf sq e) eps minPts (σ j)) := by
  constructor
  · rintro ⟨c, hc, hcore, hmem⟩
    refine ⟨σ c, perm_maps_lt hperm hc, ?_, ?_⟩
    · show minPts ≤ _
      rw [← regionQuery_length_permuted sq e eps σ hperm hc]
      exact hcore
    · exact (mem_regionQuery_permuted sq e eps σ hperm hc hj).mp hmem
  · rintro ⟨c', hc', hcore, hmem⟩
    obtain ⟨c, hc, rfl⟩ := perm_surj hperm hc'
    refine ⟨c, hc, ?_, ?_⟩
    · show minPts ≤ _
      rw [regionQuery_length_permuted sq e eps σ hperm hc]
      exact hcore
    · exact (mem_regionQuery_permuted sq e eps σ hperm hc hj).mpr hmem

end NoisePerm

theorem dbscan_eq_some {sq : ℚ → ℚ} {e : List (List ℚ)} {eps : ℚ} {minPts : ℕ}
    {r : ClusterResult} (h : dbscan sq e eps minPts = some r) :
    r = dbscanCore e.length (distOf sq e) eps minPts := by
  unfold dbscan at h
  split at h
  · exact (Option.some_injective _ h).symm
  · cases h

/-! ### The embedding-model cache (`initializeModel` of the embedding route)

The route keeps a module-level `modelCache` with the processor/model
handles and an `initializationPromise`.  JavaScript runs the synchronous
prefix of `initializeModel` atomically; the in-flight promise settles
later.  The model below is that event system: `initializeModel` is the
synchronous prefix (returning what the caller will await), `finishOk` /
`finishErr` are the two ways the in-flight construction settles.  Promises
are identified by the epoch number of the construction attempt they belong
to; `nextEpoch` numbers attempts and `pending` (ghost bookkeeping, not a
source field) lists the constructions started but not yet settled. -/

/-- The `modelCache` module state (embedding route, lines 14–25), plus the
epoch bookkeeping of the event model. -/
structure ModelCache (P M : Type) where
  imageProcessor : Option P
  visionModel : Option M
  initializationPromise : Option ℕ
  nextEpoch : ℕ
  pending : List ℕ

/-- What the synchronous prefix of `initializeModel` hands its caller:
the cached pair, the in-flight construction it will await, or the new
construction it has just started (and will await). -/
inductive InitOutcome (P M : Type) where
  | cached (p : P) (m : M)
  | await (epoch : ℕ)
  | start (epoch : ℕ)
deriving DecidableEq

/-- The synchronous prefix of `initializeModel` (embedding route,
lines 31–74): return the cached handles if both are set (lines 33–38),
else await an in-flight promise (lines 41–43), else start and record a new
construction (lines 46–73). -/
def initializeModel {P M : Type} (s : ModelCache P M) :
    ModelCache P M × InitOutcome P M :=
  match s.imageProcessor, s.visionModel with
  | some p, some m => (s, .cached p m)
  | _, _ =>
    match s.initializationPromise with
    | some e => (s, .await e)
    | none =>
      ({ s with initializationPromise := some s.nextEpoch,
                nextEpoch := s.nextEpoch + 1,
                pending := s.pending ++ [s.nextEpoch] }, .start s.nextEpoch)

/-- Construction epoch `e` settles successfully: the async body stores
both handles (lines 56–57).  The promise field is left in place — the
source never clears it on success. -/
def finishOk {P M : Type} (s : ModelCache P M) (e : ℕ) (p : P) (m : M) :
    ModelCache P M :=
  { s with imageProcessor := some p, visionModel := some m,
           pending := s.pending.erase e }

/-- Construction epoch `e` settles with failure: the `catch` clears the
in-flight promise so the next call retries (lines 66–70). -/
def finishErr {P M : Type} (s : ModelCache P M) (e : ℕ) : ModelCache P M :=
  { s with initializationPromise := none, pending := s.pending.erase e }

/-- The initial module state (lines 21–25): nothing cached, no promise. -/
def initCache (P M : Type) : ModelCache P M := ⟨none, none, none, 0, []⟩

/-- The cache states reachable by any interleaving of calls and
settlements; a settlement event must belong to a pending construction. -/
inductive CacheReachable {P M : Type} : ModelCache P M → Prop where
  | base : CacheReachable (initCache P M)
  | call {s : ModelCache P M} : CacheReachable s →
      CacheReachable (initializeModel s).1
  | ok {s : ModelCache P M} {e : ℕ} {p : P} {m : M} : CacheReachable s →
      e ∈ s.pending → CacheReachable (finishOk s e p m)
  | err {s : ModelCache P M} {e : ℕ} : CacheReachable s →
      e ∈ s.pending → CacheReachable (finishErr s e)

/-- Invariant of reachable cache states: at most one construction in
flight, any in-flight construction is the advertised promise, a ready
cache has nothing in flight, and without a promise nothing is in flight. -/
def cacheInv {P M : Type} (s : ModelCache P M) : Prop :=
  s.pending.length ≤ 1 ∧
  (∀ e ∈ s.pending, s.initializationPromise = some e) ∧
  (s.imageProcessor.isSome ∧ s.visionModel.isSome → s.pending = []) ∧
  (s.initializationPromise = none → s.pending = [])

/-! ### The embedding route `POST` (`/api/generate-embeddings`) -/

/-- The ambient effects of the embedding route: `fs.existsSync`, and the
`RawImage.read → processor → model` extraction chain, which yields a
vector or throws with a message. -/
structure EmbedEnv where
  fileExists : String → Bool
  extract : String → Except String (List ℚ)

/-- `generateImageEmbedding` (embedding route, lines 119–133): throw
`File not found` for a missing file, otherwise run the extraction chain. -/
def generateImageEmbedding (env : EmbedEnv) (photoPath : String) :
    Except String (List ℚ) :=
  if env.fileExists photoPath = false then
    .error ("File not found: " ++ photoPath)
  else
    env.extract photoPath

/-- One element of the returned `embeddings` array (lines 85–103). -/
structure EmbeddingResult where
  path : String
  embedding : Option (List ℚ)
  error : Option String
deriving DecidableEq

/-- The per-path `try/catch` inside the route's `Promise.all`
(lines 86–102): a success records the vector, a thrown error is caught
and recorded as the per-item `error`. -/
def embedOne (env : EmbedEnv) (photoPath : String) : EmbeddingResult :=
  match generateImageEmbedding env photoPath with
  | .ok emb => ⟨photoPath, some emb, none⟩
  | .error msg => ⟨photoPath, none, some msg⟩

/-- JavaScript's `String.prototype.trim`, modelled over the character
list (Lean's own `String.trim` is built on `Substring` auxiliaries that
the kernel cannot evaluate, so the model uses this executable twin). -/
def jsTrim (s : String) : String :=
  ⟨((s.data.dropWhile Char.isWhitespace).reverse.dropWhile Char.isWhitespace).reverse⟩

/-- JavaScript's `String.prototype.includes` for a single character,
modelled over the character list (executable twin of `String.contains`). -/
def jsIncludes (s : String) (c : Char) : Bool := s.data.contains c

/-- The per-item checks of `validatePhotoPaths`
(`src/lib/validation.ts`, lines 60–81); note it pushes the TRIMMED path. -/
def validatePath (maxLength : ℕ) (p : String) : Except String String :=
  if (jsTrim p).length = 0 then .error "Photo path cannot be empty"
  else if maxLength < p.length then .error "Photo path is too long"
  else if jsIncludes p (Char.ofNat 0) then .error "Photo path has invalid characters"
  else .ok (jsTrim p)

/-- `validatePhotoPaths` (`src/lib/validation.ts`, lines 40–84). -/
def validatePhotoPaths (photoPaths : List String) (maxCount maxLength : ℕ) :
    Except String (List String) :=
  if photoPaths.length = 0 then .error "Photo paths array cannot be empty"
  else if maxCount < photoPaths.length then .error "Too many photos"
  else photoPaths.mapM (validatePath maxLength)

/-- The embedding route `POST` (lines 76–114): validate (max 1000 paths of
length ≤ 1000), then embed every validated path independently — one
`EmbeddingResult` per path, in order.  The model-cache acquisition is the
separate event system above; a cache construction failure is a systemic
`500` and produces no result list at all, so it does not appear here. -/
def generateEmbeddingsPost (env : EmbedEnv) (photoPaths : List String) :
    Except String (List EmbeddingResult) :=
  (validatePhotoPaths photoPaths 1000 1000).map
    (fun valid => valid.map (embedOne env))

/-! ### The grouping route `POST` (`/api/group-photos`) -/

/-- A photo record as the grouping route sees it: identified by `id`,
joined to embeddings by `path` (`photos.find(p => p.path === ...)`). -/
structure Photo where
  id : ℕ
  path : String
deriving DecidableEq

/-- The per-item checks of `validatePhotosArray`
(`src/lib/validation.ts`, lines 108–128); unlike `validatePhotoPaths` it
stores the photo UNCHANGED (no trim) and checks no maximum path length. -/
def validatePhoto (photo : Photo) : Except String Photo :=
  if (jsTrim photo.path).length = 0 then .error "Photo has empty path"
  else if jsIncludes photo.path (Char.ofNat 0) then .error "Photo has invalid path"
  else .ok photo

/-- `validatePhotosArray` (`src/lib/validation.ts`, lines 89–131). -/
def validatePhotosArray (photos : List Photo) (maxCount : ℕ) :
    Except String (List Photo) :=
  if photos.length = 0 then .error "Photos array cannot be empty"
  else if maxCount < photos.length then .error "Too many photos"
  else photos.mapM validatePhoto

/-- `validateEps` (`src/lib/validation.ts`, lines 136–150); the
type/finiteness checks are carried by the `ℚ` type. -/
def validateEps (eps : ℚ) : Except String ℚ :=
  if eps < 0 ∨ 1 < eps then .error "eps must be between 0 and 1" else .ok eps

/-- `validateMinPts` (`src/lib/validation.ts`, lines 155–169); the
integrality check is carried by the `ℤ` type. -/
def validateMinPts (minPts : ℤ) : Except String ℤ :=
  if minPts < 1 ∨ 100 < minPts then .error "minPts must be between 1 and 100"
  else .ok minPts

/-- The `stats` object of the grouping response.  `avgGroupSize` is an
`Option` because the short-circuit branch of the route builds its stats
object WITHOUT that field (grouping route, lines 48–59), while the main
branch includes it (lines 85–97). -/
structure GroupStats where
  totalPhotos : ℕ
  groupCount : ℕ
  ungroupedCount : ℕ
  avgGroupSize : Option ℚ
deriving DecidableEq

/-- The grouping route's success response body. -/
structure GroupResponse where
  groups : List (List Photo)
  ungrouped : List Photo
  embeddingsForClient : List (String × List ℚ)
  stats : GroupStats
deriving DecidableEq

/-- The main-branch response construction of the grouping route
(lines 65–97), given the validated photos, the per-path embedding results
and the clustering result: map cluster indices back to photos by path
(dropping failed lookups, `filter(Boolean)`), map noise indices the same
way, append the first path-matching photo of every failed embedding to the
ungrouped list, and recompute stats from the arrays just built. -/
def buildGroupResponse (photosV : List Photo) (embeddings : List EmbeddingResult)
    (r : ClusterResult) : GroupResponse :=
  let validEmbeddings := embeddings.filter (fun e => e.embedding.isSome)
  let photoGroups := r.clusters.map (fun clusterIndices =>
    clusterIndices.filterMap (fun idx =>
      photosV.find? (fun p =>
        decide (p.path = (validEmbeddings.getD idx ⟨"", none, none⟩).path))))
  let ungroupedNoise := r.noise.filterMap (fun idx =>
    photosV.find? (fun p =>
      decide (p.path = (validEmbeddings.getD idx ⟨"", none, none⟩).path)))
  let failedEmbeddings := embeddings.filter (fun e => e.embedding.isNone)
  let ungroupedPhotos := ungroupedNoise ++ failedEmbeddings.filterMap (fun e =>
    photosV.find? (fun p => decide (p.path = e.path)))
  { groups := photoGroups,
    ungrouped := ungroupedPhotos,
    embeddingsForClient := validEmbeddings.map (fun e => (e.path, e.embedding.getD [])),
    stats := { totalPhotos := photosV.length,
               groupCount := photoGroups.length,
               ungroupedCount := ungroupedPhotos.length,
               avgGroupSize := some (if 0 < photoGroups.length then
                   (photoGroups.map (fun g => (g.length : ℚ))).sum / (photoGroups.length : ℚ)
                 else 0) } }

/-- The grouping route `POST` (grouping route, lines 11–106): validate
photos / `eps` / `minPts`, fetch the embeddings endpoint (a non-OK
response throws `Failed to generate embeddings`), split results into
valid and failed, short-circuit with zero groups and all photos ungrouped
when no embedding succeeded, otherwise run `dbscan` over the valid
vectors and build the response.  The `sq` parameter is `Math.sqrt` as in
`dbscan`. -/
def groupPhotosPost (sq : ℚ → ℚ) (env : EmbedEnv) (photos : List Photo)
    (eps : ℚ) (minPts : ℤ) : Except String GroupResponse :=
  match validatePhotosArray photos 1000 with
  | .error e => .error e
  | .ok photosV =>
  match validateEps eps with
  | .error e => .error e
  | .ok epsV =>
  match validateMinPts minPts with
  | .error e => .error e
  | .ok minPtsV =>
  match generateEmbeddingsPost env (photosV.map (fun p => p.path)) with
  | .error _ => .error "Failed to generate embeddings"
  | .ok embeddings =>
  let validEmbeddings := embeddings.filter (fun e => e.embedding.isSome)
  let embeddingVectors := validEmbeddings.map (fun e => e.embedding.getD [])
  if embeddingVectors.length = 0 then
    .ok { groups := [],
          ungrouped := photosV,
          embeddingsForClient := [],
          stats := { totalPhotos := photosV.length,
                     groupCount := 0,
                     ungroupedCount := photosV.length,
                     avgGroupSize := none } }
  else
    match dbscan sq embeddingVectors epsV minPtsV.toNat with
    | none => Except.error "mismatched embedding dimensions"
    | some r => .ok (buildGroupResponse photosV embeddings r)

/-- Kernel-evaluable twin of `groupPhotosPost`, using `dbscanE`
(see `groupPhotosPostE_eq`). -/
def groupPhotosPostE (sq : ℚ → ℚ) (env : EmbedEnv) (photos : List Photo)
    (eps : ℚ) (minPts : ℤ) : Except String GroupResponse :=
  match validatePhotosArray photos 1000 with
  | .error e => .error e
  | .ok photosV =>
  match validateEps eps with
  | .error e => .error e
  | .ok epsV =>
  match validateMinPts minPts with
  | .error e => .error e
  | .ok minPtsV =>
  match generateEmbeddingsPost env (photosV.map (fun p => p.path)) with
  | .error _ => .error "Failed to generate embeddings"
  | .ok embeddings =>
  let validEmbeddings := embeddings.filter (fun e => e.embedding.isSome)
  let embeddingVectors := validEmbeddings.map (fun e => e.embedding.getD [])
  if embeddingVectors.length = 0 then
    .ok { groups := [],
          ungrouped := photosV,
          embeddingsForClient := [],
          stats := { totalPhotos := photosV.length,
                     groupCount := 0,
                     ungroupedCount := photosV.length,
                     avgGroupSize := none } }
  else
    match dbscanE sq embeddingVectors epsV minPtsV.toNat with
    | none => Except.error "mismatched embedding dimensions"
    | some r => .ok (buildGroupResponse photosV embeddings r)

/-- The per-photo embedding results the grouping route obtains for a
validated photo list (the embeddings endpoint records TRIMMED paths). -/
def embedResultsOf (env : EmbedEnv) (photos : List Photo) : List EmbeddingResult :=
  photos.map (fun p => embedOne env (jsTrim p.path))

/-- The successful subset of `embedResultsOf`. -/
def validEmbeddingsOf (env : EmbedEnv) (photos : List Photo) : List EmbeddingResult :=
  (embedResultsOf env photos).filter (fun e => e.embedding.isSome)

/-- The vectors handed to `dbscan` by the grouping route. -/
def vectorsOf (env : EmbedEnv) (photos : List Photo) : List (List ℚ) :=
  (validEmbeddingsOf env photos).map (fun e => e.embedding.getD [])

/-! ### The best-pick scorer response handling (`analyzePhotosWithLLM`)
and the per-group batch loop of the grouped best-pick route -/

/-- The parsed per-photo record of the scorer's JSON; every field may be
absent (JavaScript `undefined`). -/
structure PhotoAnalysisJson where
  sharpness : Option ℚ
  brightness : Option ℚ
  composition : Option ℚ
  faceScore : Option ℚ
  allEyesOpen : Option Bool
  faceCount : Option ℕ
  reasoning : Option String
  finalScore : Option ℚ
deriving DecidableEq

/-- The parsed top-level scorer JSON.  `photos` may be absent, shorter
than the path list, or hold null entries; `bestPhotoIndex` may be absent
or any integer (a non-integral number indexes `undefined` in JavaScript
and behaves exactly like the out-of-range case modelled here). -/
structure ScorerAnalysis where
  photos : Option (List (Option PhotoAnalysisJson))
  bestPhotoIndex : Option ℤ
  bestPhotoReasoning : Option String

/-- The scorer response as `analyzePhotosWithLLM` can observe it: missing
content, no JSON object in the text, JSON that fails to parse, or a
parsed analysis. -/
inductive ScorerResponse where
  | noContent
  | noJsonObject
  | malformedJson
  | parsed (a : ScorerAnalysis)

/-- One entry of `allPhotos` (best-pick route, lines 138–156). -/
structure AnalyzedPhoto where
  path : String
  finalScore : Option ℚ
  sharpness : Option ℚ
  brightness : Option ℚ
  composition : Option ℚ
  allEyesOpen : Bool
  faceCount : ℕ
  faceScore : ℚ
  reasoning : Option String
deriving DecidableEq

/-- `BestPhotoResult` (best-pick route, lines 21–44, 161–170). -/
structure BestPhotoResult where
  bestPath : String
  bestFinalScore : Option ℚ
  imageQualityScore : Option ℚ
  faceQualityScore : ℚ
  bestReasoning : Option String
  allPhotos : List AnalyzedPhoto
deriving DecidableEq

/-- Reading the fields of `analysis.photos[index]` (lines 139–155):
a missing or null entry throws a `TypeError`; inside a present entry,
missing sub-fields silently default (`=== true`, `|| 0`) or pass through. -/
def buildAnalyzed (photoPath : String) (entry : Option PhotoAnalysisJson) :
    Except String AnalyzedPhoto :=
  match entry with
  | none => Except.error "TypeError: cannot read properties of undefined"
  | some pa => Except.ok
      { path := photoPath,
        finalScore := pa.finalScore,
        sharpness := pa.sharpness,
        brightness := pa.brightness,
        composition := pa.composition,
        allEyesOpen := decide (pa.allEyesOpen = some true),
        faceCount := pa.faceCount.getD 0,
        faceScore := pa.faceScore.getD 0,
        reasoning := pa.reasoning }

/-- The `photoPaths.map((photoPath, index) => ...)` of lines 138–156. -/
def buildAllPhotos (photoList : List (Option PhotoAnalysisJson)) :
    List String → ℕ → Except String (List AnalyzedPhoto)
  | [], _ => Except.ok []
  | p :: ps, i =>
    match buildAnalyzed p (photoList.getD i none) with
    | .error e => .error e
    | .ok a =>
      match buildAllPhotos photoList ps (i + 1) with
      | .error e => .error e
      | .ok rest => .ok (a :: rest)

/-- The response-handling tail of `analyzePhotosWithLLM` (best-pick route,
lines 131–171), given the already-fetched scorer response: every
malformation throws (becomes `Except.error`); on success the best photo is
`allPhotos[bestPhotoIndex]`, whose aggregate image-quality score is the
mean of the three sub-scores (`undefined` arithmetic — `NaN` — is modelled
as `none`) and whose face score passes through. -/
def analyzePhotosWithLLM (photoPaths : List String) (resp : ScorerResponse) :
    Except String BestPhotoResult :=
  match resp with
  | .noContent => Except.error "No response from LLM"
  | .noJsonObject => Except.error "Could not parse JSON from LLM response"
  | .malformedJson => Except.error "SyntaxError: unexpected token in JSON"
  | .parsed a =>
    match a.photos with
    | none => Except.error "TypeError: cannot read properties of undefined"
    | some photoList =>
      match buildAllPhotos photoList photoPaths 0 with
      | .error e => .error e
      | .ok allPhotos =>
      match a.bestPhotoIndex with
      | none => Except.error "TypeError: cannot read properties of undefined"
      | some bi =>
        if bi < 0 then Except.error "TypeError: cannot read properties of undefined"
        else
          match allPhotos.get? bi.toNat with
          | none => Except.error "TypeError: cannot read properties of undefined"
          | some bestPhoto =>
            let iq : Option ℚ :=
              match bestPhoto.sharpness, bestPhoto.brightness, bestPhoto.composition with
              | some s, some b, some c => some ((s + b + c) / 3)
              | _, _, _ => none
            Except.ok
              ({ bestPath := bestPhoto.path,
                 bestFinalScore := bestPhoto.finalScore,
                 imageQualityScore := iq,
                 faceQualityScore := bestPhoto.faceScore,
                 bestReasoning := a.bestPhotoReasoning,
                 allPhotos := allPhotos } : BestPhotoResult)

/-- The best-pick route `POST` (best-pick route, lines 173–190): validate
(≤ 10 paths), then run the scorer-response handling; any throw is caught
and becomes this one group's error response. -/
def selectBestPhotoPost (photoPaths : List String) (resp : ScorerResponse) :
    Except String BestPhotoResult :=
  match validatePhotoPaths photoPaths 10 1000 with
  | .error e => .error e
  | .ok valid => analyzePhotosWithLLM valid resp

/-- The per-group outcome of the `fetch('/api/analyze-photos')` call in
the grouped best-pick route: a non-OK response, or a body whose
`bestPhoto` may be absent, or present with a path and `overallScore`. -/
inductive AnalyzeOutcome where
  | httpError
  | okBody (bestPhoto : Option (String × ℚ))

/-- One entry of the grouped best-pick route's `results` array. -/
structure GroupPickResult where
  groupId : ℕ
  bestPhotoId : Option ℕ
  bestPhotoPath : Option String
  score : Option ℚ
  error : Option String
deriving DecidableEq

/-- The body of the grouped best-pick route's per-group loop iteration:
skip empty groups; auto-select a single photo with score 100 and NO
external call (the outcome argument is ignored in that branch); otherwise
consume the per-group scoring outcome, catching every per-group throw as
that group's error entry. -/
def processGroup (groupIndex : ℕ) (group : List Photo)
    (outcome : AnalyzeOutcome) : Option GroupPickResult :=
  match group with
  | [] => none
  | [photo] => some ⟨groupIndex, some photo.id, some photo.path, some 100, none⟩
  | _ =>
    match outcome with
    | .httpError => some ⟨groupIndex, none, none, none, some "Error analyzing group"⟩
    | .okBody none => some ⟨groupIndex, none, none, none, some "No best photo identified"⟩
    | .okBody (some (bestPath, score)) =>
        some ⟨groupIndex,
              (group.find? (fun p => decide (p.path = bestPath))).map (fun p => p.id),
              some bestPath, some score, none⟩

/-- The grouped best-pick route's sequential loop over
`photoGroups.entries()`, collecting one result per non-empty group;
`outcomes` gives each group's external scoring outcome. -/
def processGroupsFrom (outcomes : ℕ → AnalyzeOutcome) :
    ℕ → List (List Photo) → List GroupPickResult
  | _, [] => []
  | i, g :: gs =>
    match processGroup i g (outcomes i) with
    | some r => r :: processGroupsFrom outcomes (i + 1) gs
    | none => processGroupsFrom outcomes (i + 1) gs

/-- The grouped best-pick route `POST` body after parsing `photoGroups`. -/
def processGroups (photoGroups : List (List Photo))
    (outcomes : ℕ → AnalyzeOutcome) : List GroupPickResult :=
  processGroupsFrom outcomes 0 photoGroups

/-! ### Cache theorems -/

theorem pending_eq_singleton {P M : Type} {s : ModelCache P M} (hinv : cacheInv s)
    {e : ℕ} (he : e ∈ s.pending) : s.pending = [e] := by
  obtain ⟨hlen, _, _, _⟩ := hinv
  match hp : s.pending with
  | [] =>
    rw [hp] at he
    cases he
  | [x] =>
    rw [hp] at he
    rcases List.mem_singleton.mp he with rfl
    rfl
  | x :: y :: t =>
    rw [hp] at hlen
    simp at hlen

theorem cacheInv_reachable {P M : Type} {s : ModelCache P M}
    (h : CacheReachable s) : cacheInv s := by
  induction h with
  | base =>
    exact ⟨by simp [initCache], by simp [initCache], fun _ => rfl, fun _ => rfl⟩
  | @call s hs ih =>
    obtain ⟨hlen, hadv, hready, hnone⟩ := ih
    obtain ⟨ip, vm, promise, ne, pend⟩ := s
    match ip, vm with
    | some p, some m =>
      exact ⟨hlen, hadv, hready, hnone⟩
    | some p, none =>
      match promise with
      | some e => exact ⟨hlen, hadv, hready, hnone⟩
      | none =>
        have hp : pend = [] := hnone rfl
        subst hp
        refine ⟨by simp [initializeModel], ?_, ?_, ?_⟩
        · intro e he
          simp [initializeModel] at he ⊢
          simp [he]
        · intro hr
          simp [initializeModel] at hr
        · intro hr
          simp [initializeModel] at hr
    | none, vm =>
      match promise with
      | some e => exact ⟨hlen, hadv, hready, hnone⟩
      | none =>
        have hp : pend = [] := hnone rfl
        subst hp
        refine ⟨by simp [initializeModel], ?_, ?_, ?_⟩
        · intro e he
          simp [initializeModel] at he ⊢
          simp [he]
        · intro hr
          simp [initializeModel] at hr
        · intro hr
          simp [initializeModel] at hr
  | @ok s e p m hs he ih =>
    have hpend := pending_eq_singleton ih he
    obtain ⟨hlen, hadv, hready, hnone⟩ := ih
    have herase : s.pending.erase e = [] := by
      rw [hpend]
      simp
    refine ⟨?_, ?_, ?_, ?_⟩
    · show (s.pending.erase e).length ≤ 1
      rw [herase]
      simp
    · intro x hx
      rw [show (finishOk s e p m).pending = s.pending.erase e from rfl, herase] at hx
      cases hx
    · intro _
      show s.pending.erase e = []
      exact herase
    · intro _
      show s.pending.erase e = []
      exact herase
  | @err s e hs he ih =>
    have hpend := pending_eq_singleton ih he
    have herase : s.pending.erase e = [] := by
      rw [hpend]
      simp
    refine ⟨?_, ?_, ?_, ?_⟩
    · show (s.pending.erase e).length ≤ 1
      rw [herase]
      simp
    · intro x hx
      rw [show (finishErr s e).pending = s.pending.erase e from rfl, herase] at hx
      cases hx
    · intro _
      show s.pending.erase e = []
      exact herase
    · intro _
      show s.pending.erase e = []
      exact herase

/-- C2.  The embedding-model cache follows
`Uninitialized → Initializing → Ready` with `Ready` terminal: in every
reachable cache state, (1) once both handles are cached, a call returns
exactly the cached pair, changes nothing, and no construction is or will
be in flight (so no event can ever overwrite the handles); (2) while a
construction is in flight and the cache is not ready, every caller awaits
exactly that single in-flight construction — at most one construction per
epoch; (3) when an in-flight construction fails, the promise marker is
cleared and the very next call starts a fresh construction (the error is
not cached). -/
theorem claim_C2_cache_state_machine {P M : Type} (s : ModelCache P M)
    (h : CacheReachable s) :
    (∀ p m, s.imageProcessor = some p → s.visionModel = some m →
      initializeModel s = (s, InitOutcome.cached p m) ∧ s.pending = []) ∧
    (∀ e, ¬ (s.imageProcessor.isSome ∧ s.visionModel.isSome) →
      s.initializationPromise = some e →
      initializeModel s = (s, InitOutcome.await e) ∧
      (∀ x ∈ s.pending, x = e)) ∧
    (∀ e, e ∈ s.pending →
      (finishErr s e).initializationPromise = none ∧
      (initializeModel (finishErr s e)).2 = InitOutcome.start s.nextEpoch ∧
      (initializeModel (finishErr s e)).1.initializationPromise = some s.nextEpoch) := by
  obtain ⟨hlen, hadv, hready, hnone⟩ := cacheInv_reachable h
  refine ⟨?_, ?_, ?_⟩
  · intro p m hp hm
    constructor
    · show initializeModel s = (s, InitOutcome.cached p m)
      unfold initializeModel
      rw [hp, hm]
    · exact hready (by rw [hp, hm]; exact ⟨rfl, rfl⟩)
  · intro e hnotready hpromise
    constructor
    · unfold initializeModel
      obtain ⟨ip, vm, promise, ne, pend⟩ := s
      simp only at hpromise hnotready
      match hip : ip, hvm : vm with
      | some p, some m =>
        exact absurd ⟨rfl, rfl⟩ hnotready
      | some p, none =>
        subst hpromise
        rfl
      | none, some m =>
        subst hpromise
        rfl
      | none, none =>
        subst hpromise
        rfl
    · intro x hx
      have := hadv x hx
      rw [hpromise] at this
      exact (Option.some_injective _ this).symm
  · intro e he
    have hpend := pending_eq_singleton ⟨hlen, hadv, hready, hnone⟩ he
    have hnr : ¬ (s.imageProcessor.isSome ∧ s.visionModel.isSome) := by
      intro hr
      rw [hready hr] at hpend
      cases hpend
    refine ⟨rfl, ?_, ?_⟩
    · unfold initializeModel finishErr
      obtain ⟨ip, vm, promise, ne, pend⟩ := s
      simp only at hnr ⊢
      match hip : ip, hvm : vm with
      | some p, some m =>
        exact absurd ⟨rfl, rfl⟩ hnr
      | some p, none => rfl
      | none, some m => rfl
      | none, none => rfl
    · unfold initializeModel finishErr
      obtain ⟨ip, vm, promise, ne, pend⟩ := s
      simp only at hnr ⊢
      match hip : ip, hvm : vm with
      | some p, some m =>
        exact absurd ⟨rfl, rfl⟩ hnr
      | some p, none => rfl
      | none, some m => rfl
      | none, none => rfl

/-- Witness for C2 at a concrete reachable state: after one call on the
fresh cache, a construction (epoch 0) is in flight, and a second
concurrent caller awaits exactly that construction. -/
theorem claim_C2_witness :
    initializeModel ((initializeModel (initCache ℕ ℕ)).1) =
      ((initializeModel (initCache ℕ ℕ)).1, InitOutcome.await 0) ∧
    (∀ x ∈ ((initializeModel (initCache ℕ ℕ)).1).pending, x = 0) := by
  have h := (claim_C2_cache_state_machine ((initializeModel (initCache ℕ ℕ)).1)
    (CacheReachable.call CacheReachable.base)).2.1 0 (by decide) rfl
  exact h

/-! ### Validation inversion lemmas and the embedding-batch claim -/

theorem validatePath_ok {maxLength : ℕ} {p v : String}
    (h : validatePath maxLength p = Except.ok v) : v = jsTrim p := by
  unfold validatePath at h
  split at h
  · cases h
  · split at h
    · cases h
    · split at h
      · cases h
      · exact (Except.ok.inj h).symm

theorem mapM_validatePath_ok {maxLength : ℕ} :
    ∀ {l v : List String}, l.mapM (validatePath maxLength) = Except.ok v →
      v = l.map jsTrim := by
  intro l
  induction l with
  | nil =>
    intro v h
    rw [List.mapM_nil] at h
    cases h
    rfl
  | cons p ps ih =>
    intro v h
    rw [List.mapM_cons] at h
    cases hp : validatePath maxLength p with
    | error e =>
      rw [hp] at h
      cases h
    | ok v0 =>
      rw [hp] at h
      cases hps : ps.mapM (validatePath maxLength) with
      | error e =>
        rw [hps] at h
        cases h
      | ok rest =>
        rw [hps] at h
        cases h
        rw [List.map_cons, ← validatePath_ok hp, ← ih hps]

theorem validatePhotoPaths_ok {photoPaths : List String} {maxC maxL : ℕ}
    {v : List String} (h : validatePhotoPaths photoPaths maxC maxL = Except.ok v) :
    v = photoPaths.map jsTrim := by
  unfold validatePhotoPaths at h
  split at h
  · cases h
  · split at h
    · cases h
    · exact mapM_validatePath_ok h

theorem validatePhoto_ok {photo v : Photo} (h : validatePhoto photo = Except.ok v) :
    v = photo := by
  unfold validatePhoto at h
  split at h
  · cases h
  · split at h
    · cases h
    · exact (Except.ok.inj h).symm

theorem mapM_validatePhoto_ok :
    ∀ {l v : List Photo}, l.mapM validatePhoto = Except.ok v → v = l := by
  intro l
  induction l with
  | nil =>
    intro v h
    rw [List.mapM_nil] at h
    cases h
    rfl
  | cons p ps ih =>
    intro v h
    rw [List.mapM_cons] at h
    cases hp : validatePhoto p with
    | error e =>
      rw [hp] at h
      cases h
    | ok v0 =>
      rw [hp] at h
      cases hps : ps.mapM validatePhoto with
      | error e =>
        rw [hps] at h
        cases h
      | ok rest =>
        rw [hps] at h
        cases h
        rw [← validatePhoto_ok hp, ← ih hps]

theorem validatePhotosArray_ok {photos : List Photo} {maxC : ℕ} {v : List Photo}
    (h : validatePhotosArray photos maxC = Except.ok v) : v = photos := by
  unfold validatePhotosArray at h
  split at h
  · cases h
  · split at h
    · cases h
    · exact mapM_validatePhoto_ok h

theorem validateEps_ok {eps v : ℚ} (h : validateEps eps = Except.ok v) : v = eps := by
  unfold validateEps at h
  split at h
  · cases h
  · exact (Except.ok.inj h).symm

theorem validateMinPts_ok {minPts v : ℤ} (h : validateMinPts minPts = Except.ok v) :
    v = minPts := by
  unfold validateMinPts at h
  split at h
  · cases h
  · exact (Except.ok.inj h).symm

theorem generateEmbeddingsPost_ok {env : EmbedEnv} {photoPaths : List String}
    {results : List EmbeddingResult}
    (h : generateEmbeddingsPost env photoPaths = Except.ok results) :
    results = (photoPaths.map jsTrim).map (embedOne env) := by
  unfold generateEmbeddingsPost at h
  cases hv : validatePhotoPaths photoPaths 1000 1000 with
  | error e =>
    rw [hv] at h
    cases h
  | ok valid =>
    rw [hv] at h
    cases h
    rw [validatePhotoPaths_ok hv]

theorem getD_map_of_lt {α β : Type} (f : α → β) (l : List α) (i : ℕ)
    (hi : i < l.length) (d : α) (d' : β) :
    (l.map f).getD i d' = f (l.getD i d) := by
  rw [List.getD_eq_getElem?_getD, List.getD_eq_getElem?_getD, List.getElem?_map]
  rw [List.getElem?_eq_getElem hi]
  rfl

/-- C5.  For every batch the embeddings endpoint accepts, the output list
has exactly the same length as the input, in the same order — the `i`-th
result is the per-item embedding of the `i`-th (trimmed) input path — and
each per-item result records either a `File not found` error for a
missing file, the extraction failure's message, or the extracted vector,
without aborting the batch. -/
theorem claim_C5_embeddings_batch (env : EmbedEnv) (photoPaths : List String)
    (results : List EmbeddingResult)
    (h : generateEmbeddingsPost env photoPaths = Except.ok results) :
    results.length = photoPaths.length ∧
    (∀ i, i < photoPaths.length →
      results.getD i ⟨"", none, none⟩ = embedOne env (jsTrim (photoPaths.getD i ""))) ∧
    (∀ p : String,
      (env.fileExists p = false →
        embedOne env p = ⟨p, none, some ("File not found: " ++ p)⟩) ∧
      (∀ msg, env.fileExists p = true → env.extract p = Except.error msg →
        embedOne env p = ⟨p, none, some msg⟩) ∧
      (∀ emb, env.fileExists p = true → env.extract p = Except.ok emb →
        embedOne env p = ⟨p, some emb, none⟩)) := by
  have hres := generateEmbeddingsPost_ok h
  refine ⟨?_, ?_, ?_⟩
  · rw [hres, List.length_map, List.length_map]
  · intro i hi
    rw [hres]
    rw [getD_map_of_lt (embedOne env) _ i (by rw [List.length_map]; exact hi) ""]
    rw [getD_map_of_lt jsTrim _ i hi ""]
  · intro p
    refine ⟨?_, ?_, ?_⟩
    · intro hex
      unfold embedOne generateImageEmbedding
      rw [hex]
      rfl
    · intro msg hex hext
      unfold embedOne generateImageEmbedding
      rw [hex, hext]
      rfl
    · intro emb hex hext
      unfold embedOne generateImageEmbedding
      rw [hex, hext]
      rfl

/-- A concrete environment for the C5 witness: `ok.jpg` extracts to
`[1, 2]`, any other file is missing. -/
def env5 : EmbedEnv :=
  ⟨fun s => decide (s = "ok.jpg"),
   fun s => if s = "ok.jpg" then Except.ok [1, 2] else Except.error "boom"⟩

/-- Witness for C5 at a concrete two-path batch with one success and one
missing file. -/
theorem claim_C5_witness :
    (([⟨"ok.jpg", some [1, 2], none⟩,
       ⟨"missing.jpg", none, some "File not found: missing.jpg"⟩] :
        List EmbeddingResult)).length = (["ok.jpg", "missing.jpg"] : List String).length ∧
    ([⟨"ok.jpg", some [1, 2], none⟩,
      ⟨"missing.jpg", none, some "File not found: missing.jpg"⟩] :
        List EmbeddingResult).getD 1 ⟨"", none, none⟩ =
      embedOne env5 (jsTrim ((["ok.jpg", "missing.jpg"] : List String).getD 1 "")) := by
  have h := claim_C5_embeddings_batch env5 ["ok.jpg", "missing.jpg"]
    [⟨"ok.jpg", some [1, 2], none⟩,
     ⟨"missing.jpg", none, some "File not found: missing.jpg"⟩] (by rfl)
  exact ⟨h.1, h.2.1 1 (by decide)⟩

/-! ### Grouping-route characterization and claims -/

theorem embedResultsOf_eq (env : EmbedEnv) (photos : List Photo) :
    ((photos.map (fun p => p.path)).map jsTrim).map (embedOne env) =
      embedResultsOf env photos := by
  rw [List.map_map, List.map_map]
  rfl

theorem groupPhotosPostE_eq (sq : ℚ → ℚ) (env : EmbedEnv) (photos : List Photo)
    (eps : ℚ) (minPts : ℤ) :
    groupPhotosPostE sq env photos eps minPts =
      groupPhotosPost sq env photos eps minPts := by
  unfold groupPhotosPostE groupPhotosPost
  simp only [dbscanE_eq]

theorem groupPhotosPost_ok_cases {sq : ℚ → ℚ} {env : EmbedEnv}
    {photos : List Photo} {eps : ℚ} {minPts : ℤ} {resp : GroupResponse}
    (h : groupPhotosPost sq env photos eps minPts = Except.ok resp) :
    (vectorsOf env photos = [] ∧
      resp = ⟨[], photos, [], ⟨photos.length, 0, photos.length, none⟩⟩) ∨
    (vectorsOf env photos ≠ [] ∧
      ∃ r, dbscan sq (vectorsOf env photos) eps minPts.toNat = some r ∧
        resp = buildGroupResponse photos (embedResultsOf env photos) r) := by
  unfold groupPhotosPost at h
  split at h
  · cases h
  · rename_i photosV hval
    rw [validatePhotosArray_ok hval] at h
    split at h
    · cases h
    · rename_i epsV heps
      rw [validateEps_ok heps] at h
      split at h
      · cases h
      · rename_i minPtsV hmp
        rw [validateMinPts_ok hmp] at h
        split at h
        · cases h
        · rename_i embeddings hge
          rw [generateEmbeddingsPost_ok hge, embedResultsOf_eq] at h
          dsimp only at h
          split at h
          · left
            rename_i hlen
            refine ⟨List.length_eq_zero.mp hlen, ?_⟩
            exact (Except.ok.inj h).symm
          · right
            rename_i hlen
            refine ⟨fun hv => hlen (show (vectorsOf env photos).length = 0 by rw [hv]; rfl), ?_⟩
            split at h
            · cases h
            · rename_i r heq
              exact ⟨r, heq, (Except.ok.inj h).symm⟩

/-- C10.  In every successful grouping response computed from at least one
valid embedding, the stats are mutually consistent with the returned
arrays: `totalPhotos` is the input count, `groupCount` the number of
returned groups, `ungroupedCount` the length of the ungrouped array, and
`avgGroupSize` the mean group size (`0` with no groups). -/
theorem claim_C10_stats_consistent (sq : ℚ → ℚ) (env : EmbedEnv)
    (photos : List Photo) (eps : ℚ) (minPts : ℤ) (resp : GroupResponse)
    (h : groupPhotosPost sq env photos eps minPts = Except.ok resp)
    (hne : vectorsOf env photos ≠ []) :
    resp.stats.totalPhotos = photos.length ∧
    resp.stats.groupCount = resp.groups.length ∧
    resp.stats.ungroupedCount = resp.ungrouped.length ∧
    resp.stats.avgGroupSize = some (if 0 < resp.groups.length then
        (resp.groups.map (fun g => (g.length : ℚ))).sum / (resp.groups.length : ℚ)
      else 0) := by
  rcases groupPhotosPost_ok_cases h with ⟨hv, _⟩ | ⟨_, r, hdb, rfl⟩
  · exact absurd hv hne
  · exact ⟨rfl, rfl, rfl, rfl⟩

/-- A concrete environment for the C10 witness: every file exists and
extracts to `[1]`. -/
def envC10 : EmbedEnv := ⟨fun _ => true, fun _ => Except.ok [1]⟩

/-- The concrete photo list of the C10 witness. -/
def photosC10 : List Photo := [⟨0, "a"⟩]

/-- Witness for C10: a one-photo request whose single embedding succeeds
and forms one cluster; the returned stats match the returned arrays. -/
theorem claim_C10_witness :
    (⟨[[⟨0, "a"⟩]], [], [("a", [1])], ⟨1, 1, 0, some 1⟩⟩ :
        GroupResponse).stats.totalPhotos = photosC10.length ∧
    (⟨[[⟨0, "a"⟩]], [], [("a", [1])], ⟨1, 1, 0, some 1⟩⟩ :
        GroupResponse).stats.groupCount =
      (⟨[[⟨0, "a"⟩]], [], [("a", [1])], ⟨1, 1, 0, some 1⟩⟩ :
        GroupResponse).groups.length := by
  have h := claim_C10_stats_consistent (fun q => q) envC10 photosC10 (1/4) 1
    ⟨[[⟨0, "a"⟩]], [], [("a", [1])], ⟨1, 1, 0, some 1⟩⟩
    (by rw [← groupPhotosPostE_eq]; with_unfolding_all rfl)
    (by with_unfolding_all decide)
  exact ⟨h.1, h.2.1⟩

/-- The all-failures environment of the C7 counterexample. -/
def env7 : EmbedEnv := ⟨fun _ => false, fun _ => Except.error "x"⟩

/-- The concrete photo list of the C7 counterexample. -/
def photos7 : List Photo := [⟨0, "a"⟩]

/-- C7 counterexample: when zero embeddings succeed, the route does
short-circuit into a success response with zero groups and all photos
ungrouped — but the stats object it builds (grouping route, lines 48–59)
contains only `totalPhotos`, `groupCount` and `ungroupedCount`; the
`avgGroupSize` field of `GroupStats` is absent, not `0` as the claim's
"every GroupStats field, zero-valued" requires. -/
theorem claim_C7_counterexample :
    groupPhotosPost (fun q => q) env7 photos7 (1/4) 2 =
      Except.ok ⟨[], photos7, [], ⟨1, 0, 1, none⟩⟩ ∧
    (⟨1, 0, 1, none⟩ : GroupStats).avgGroupSize ≠ some 0 := by
  refine ⟨?_, by decide⟩
  rw [← groupPhotosPostE_eq]
  with_unfolding_all rfl

/-- C7 amended.  If zero photos produce a valid embedding, the grouping
endpoint short-circuits into a SUCCESS response with zero groups, all
input photos ungrouped, and stats `totalPhotos = N`, `groupCount = 0`,
`ungroupedCount = N` — with the `avgGroupSize` field ABSENT from the
short-circuit stats object (the other three `GroupStats` fields are
present and zero-valued as claimed). -/
theorem claim_C7_amended (sq : ℚ → ℚ) (env : EmbedEnv) (photos : List Photo)
    (eps : ℚ) (minPts : ℤ) (resp : GroupResponse)
    (h : groupPhotosPost sq env photos eps minPts = Except.ok resp)
    (hzero : vectorsOf env photos = []) :
    resp = ⟨[], photos, [], ⟨photos.length, 0, photos.length, none⟩⟩ := by
  rcases groupPhotosPost_ok_cases h with ⟨_, rfl⟩ | ⟨hne, _⟩
  · rfl
  · exact absurd hzero hne

/-- Witness for C7 (amended) at the concrete all-failures request. -/
theorem claim_C7_witness :
    (⟨[], photos7, [], ⟨1, 0, 1, none⟩⟩ : GroupResponse) =
      ⟨[], photos7, [], ⟨photos7.length, 0, photos7.length, none⟩⟩ :=
  claim_C7_amended (fun q => q) env7 photos7 (1/4) 2
    ⟨[], photos7, [], ⟨1, 0, 1, none⟩⟩
    (by rw [← groupPhotosPostE_eq]; with_unfolding_all rfl)
    (by with_unfolding_all decide)

/-! ### C6: failed embeddings and the ungrouped set -/

theorem embedOne_path (env : EmbedEnv) (q : String) : (embedOne env q).path = q := by
  unfold embedOne
  cases generateImageEmbedding env q with
  | error e => rfl
  | ok v => rfl

theorem find?_path_self : ∀ {photos : List Photo},
    (photos.map (fun p => p.path)).Nodup → ∀ {pi : Photo}, pi ∈ photos →
    photos.find? (fun p => decide (p.path = pi.path)) = some pi := by
  intro photos
  induction photos with
  | nil =>
    intro _ pi hmem
    cases hmem
  | cons q t ih =>
    intro hnd pi hmem
    rw [List.map_cons] at hnd
    have hnd' := List.nodup_cons.mp hnd
    rcases List.mem_cons.mp hmem with rfl | hmem'
    · rw [List.find?_cons_of_pos]
      simp
    · have hne : ¬ (q.path = pi.path) := by
        intro he
        exact hnd'.1 (he ▸ List.mem_map_of_mem (fun p => p.path) hmem')
      rw [List.find?_cons_of_neg _ (by simpa using hne)]
      exact ih hnd'.2 hmem'

theorem length_filterMap_of_isSome {α β : Type} (f : α → Option β) :
    ∀ l : List α, (∀ x ∈ l, (f x).isSome = true) →
      (l.filterMap f).length = l.length := by
  intro l
  induction l with
  | nil => intro _; rfl
  | cons a t ih =>
    intro h
    have ha := h a (List.mem_cons_self _ _)
    cases hfa : f a with
    | none => rw [hfa] at ha; cases ha
    | some b =>
      simp only [List.filterMap_cons, hfa, List.length_cons,
        ih (fun x hx => h x (List.mem_cons_of_mem _ hx))]

theorem getD_mem_of_lt {α : Type} (l : List α) (i : ℕ) (d : α)
    (hi : i < l.length) : l.getD i d ∈ l := by
  rw [List.getD_eq_getElem l d hi]
  exact List.getElem_mem hi

/-- The concrete duplicate-path environment of the C6 counterexample:
path `a` is missing, path `b` extracts to `[1]`. -/
def env6 : EmbedEnv :=
  ⟨fun s => decide (s = "b"),
   fun s => if s = "b" then Except.ok [1] else Except.error "boom"⟩

/-- Two photos sharing the failing path `a`, one photo with path `b`. -/
def photos6 : List Photo := [⟨0, "a"⟩, ⟨1, "a"⟩, ⟨2, "b"⟩]

/-- C6 counterexample: with two distinct photos sharing one failing path,
`photos.find(p => p.path === e.path)` resolves BOTH failure records to the
first photo, so the second failed photo (id 1) never appears in the
returned ungrouped set — it is silently dropped. -/
theorem claim_C6_counterexample :
    groupPhotosPost (fun q => q) env6 photos6 (1/4) 1 =
      Except.ok ⟨[[⟨2, "b"⟩]], [⟨0, "a"⟩, ⟨0, "a"⟩], [("b", [1])], ⟨3, 1, 2, some 1⟩⟩ ∧
    ((embedResultsOf env6 photos6).getD 1 ⟨"", none, none⟩).embedding = none ∧
    photos6.getD 1 ⟨0, ""⟩ ∉
      ([⟨0, "a"⟩, ⟨0, "a"⟩] : List Photo) := by
  refine ⟨?_, ?_, ?_⟩
  · rw [← groupPhotosPostE_eq]
    with_unfolding_all rfl
  · with_unfolding_all decide
  · with_unfolding_all decide

/-- C6 amended.  For every grouping request the endpoint accepts whose
input photos have pairwise-distinct, already-trimmed paths and at least
one valid embedding: every photo whose embedding failed appears in the
returned ungrouped set; clustering runs only over the successfully
embedded subset (every photo of every returned group has a successful
embedding); and `stats.ungroupedCount` counts the failed-embedding photos
together with the noise photos.  (Without distinct trimmed paths the
original claim fails: duplicate failing paths all resolve to the first
matching photo, and untrimmed paths fail the lookup entirely.) -/
theorem claim_C6_failed_to_ungrouped (sq : ℚ → ℚ) (env : EmbedEnv)
    (photos : List Photo) (eps : ℚ) (minPts : ℤ) (resp : GroupResponse)
    (h : groupPhotosPost sq env photos eps minPts = Except.ok resp)
    (hnd : (photos.map (fun p => p.path)).Nodup)
    (htrim : ∀ p ∈ photos, jsTrim p.path = p.path)
    (hne : vectorsOf env photos ≠ []) :
    (∀ i, i < photos.length →
      ((embedResultsOf env photos).getD i ⟨"", none, none⟩).embedding = none →
      photos.getD i ⟨0, ""⟩ ∈ resp.ungrouped) ∧
    (∀ g ∈ resp.groups, ∀ p ∈ g, (embedOne env p.path).embedding ≠ none) ∧
    (∃ r, dbscan sq (vectorsOf env photos) eps minPts.toNat = some r ∧
      resp.stats.ungroupedCount = r.noise.length +
        ((embedResultsOf env photos).filter (fun e => e.embedding.isNone)).length) := by
  rcases groupPhotosPost_ok_cases h with ⟨hv, _⟩ | ⟨_, r, hdb, rfl⟩
  · exact absurd hv hne
  have hcore := dbscan_eq_some hdb
  have hnlen : (vectorsOf env photos).length = (validEmbeddingsOf env photos).length := by
    unfold vectorsOf
    rw [List.length_map]
  have hvalidlen : ∀ idx ∈ r.noise ++ r.clusters.flatten,
      idx < (validEmbeddingsOf env photos).length := by
    intro idx hidx
    rw [← hnlen]
    rw [hcore] at hidx
    exact dbscanCore_mem_lt _ _ _ _ idx hidx
  have hvalid_shape : ∀ idx, idx < (validEmbeddingsOf env photos).length →
      ∃ ph ∈ photos,
        ((validEmbeddingsOf env photos).getD idx ⟨"", none, none⟩).path = ph.path ∧
        ((validEmbeddingsOf env photos).getD idx ⟨"", none, none⟩).embedding.isSome = true := by
    intro idx hidx
    have hmem := getD_mem_of_lt (validEmbeddingsOf env photos) idx ⟨"", none, none⟩ hidx
    have hfil := List.mem_filter.mp hmem
    obtain ⟨ph, hph, hphe⟩ := List.mem_map.mp hfil.1
    refine ⟨ph, hph, ?_, by simpa using hfil.2⟩
    rw [← hphe]
    rw [embedOne_path]
    exact htrim ph hph
  refine ⟨?_, ?_, ?_⟩
  · -- every failed photo lands in the ungrouped list
    intro i hi hfail
    have hpi : photos.getD i ⟨0, ""⟩ ∈ photos := getD_mem_of_lt photos i ⟨0, ""⟩ hi
    have hei : (embedResultsOf env photos).getD i ⟨"", none, none⟩ =
        embedOne env (jsTrim (photos.getD i ⟨0, ""⟩).path) := by
      unfold embedResultsOf
      exact getD_map_of_lt (fun p => embedOne env (jsTrim p.path)) photos i hi ⟨0, ""⟩
        ⟨"", none, none⟩
    rw [htrim _ hpi] at hei
    have hfmem : (embedResultsOf env photos).getD i ⟨"", none, none⟩ ∈
        (embedResultsOf env photos).filter (fun e => e.embedding.isNone) := by
      refine List.mem_filter.mpr ⟨?_, ?_⟩
      · refine getD_mem_of_lt _ i _ ?_
        unfold embedResultsOf
        rw [List.length_map]
        exact hi
      · rw [hfail]
        rfl
    have hfind : photos.find? (fun p => decide (p.path =
        ((embedResultsOf env photos).getD i ⟨"", none, none⟩).path)) =
        some (photos.getD i ⟨0, ""⟩) := by
      rw [hei, embedOne_path]
      exact find?_path_self hnd hpi
    have hmemf : photos.getD i ⟨0, ""⟩ ∈
        ((embedResultsOf env photos).filter (fun e => e.embedding.isNone)).filterMap
          (fun e => photos.find? (fun p => decide (p.path = e.path))) :=
      List.mem_filterMap.mpr ⟨_, hfmem, hfind⟩
    exact List.mem_append_right _ hmemf
  · -- groups contain only successfully embedded photos
    intro g hg p hp
    have hg' : g ∈ (buildGroupResponse photos (embedResultsOf env photos) r).groups := hg
    simp only [buildGroupResponse] at hg'
    obtain ⟨cl, hcl, rfl⟩ := List.mem_map.mp hg'
    obtain ⟨idx, hidx, hfind⟩ := List.mem_filterMap.mp hp
    have hidxlt : idx < (validEmbeddingsOf env photos).length :=
      hvalidlen idx (List.mem_append_right _ (List.mem_flatten.mpr ⟨cl, hcl, hidx⟩))
    have hpred := List.find?_some hfind
    have hpath : p.path = ((validEmbeddingsOf env photos).getD idx ⟨"", none, none⟩).path := by
      simpa using hpred
    obtain ⟨ph, hph, hphpath, hsome⟩ := hvalid_shape idx hidxlt
    have hpph : p.path = ph.path := by rw [hpath, hphpath]
    have hvem : (validEmbeddingsOf env photos).getD idx ⟨"", none, none⟩ =
        embedOne env p.path := by
      have hmem := getD_mem_of_lt (validEmbeddingsOf env photos) idx ⟨"", none, none⟩ hidxlt
      have hfil := List.mem_filter.mp hmem
      obtain ⟨ph', hph', hphe'⟩ := List.mem_map.mp hfil.1
      rw [← hphe']
      have : jsTrim ph'.path = p.path := by
        rw [hpath, ← hphe', embedOne_path]
      rw [this]
    intro hnone
    rw [← hvem] at hnone
    rw [hnone] at hsome
    cases hsome
  · -- ungroupedCount = noise + failed
    refine ⟨r, hdb, ?_⟩
    show ((r.noise.filterMap _) ++ _).length = _
    rw [List.length_append]
    have h1 : (r.noise.filterMap (fun idx =>
        photos.find? (fun p => decide (p.path =
          (((embedResultsOf env photos).filter (fun e => e.embedding.isSome)).getD idx
            ⟨"", none, none⟩).path)))).length = r.noise.length := by
      refine length_filterMap_of_isSome _ _ ?_
      intro idx hidx
      have hidxlt : idx < (validEmbeddingsOf env photos).length :=
        hvalidlen idx (List.mem_append_left _ hidx)
      obtain ⟨ph, hph, hphpath, _⟩ := hvalid_shape idx hidxlt
      rw [show (((embedResultsOf env photos).filter (fun e => e.embedding.isSome)).getD idx
          ⟨"", none, none⟩).path = ph.path from hphpath]
      rw [find?_path_self hnd hph]
      rfl
    have h2 : (((embedResultsOf env photos).filter (fun e => e.embedding.isNone)).filterMap
        (fun e => photos.find? (fun p => decide (p.path = e.path)))).length =
        ((embedResultsOf env photos).filter (fun e => e.embedding.isNone)).length := by
      refine length_filterMap_of_isSome _ _ ?_
      intro e he
      have hmem := (List.mem_filter.mp he).1
      obtain ⟨ph, hph, hphe⟩ := List.mem_map.mp hmem
      rw [show e.path = ph.path from by rw [← hphe, embedOne_path]; exact htrim ph hph]
      rw [find?_path_self hnd hph]
      rfl
    rw [h1, h2]

/-- The concrete environment of the C6 witness: path `a` is missing,
path `b` extracts to `[1]`. -/
def env6w : EmbedEnv :=
  ⟨fun s => decide (s = "b"),
   fun s => if s = "b" then Except.ok [1] else Except.error "boom"⟩

/-- Distinct trimmed paths, one failing and one succeeding. -/
def photos6w : List Photo := [⟨0, "a"⟩, ⟨1, "b"⟩]

/-- Witness for C6 (amended): the failed photo (id 0) appears in the
ungrouped list of the concrete response. -/
theorem claim_C6_witness :
    photos6w.getD 0 ⟨0, ""⟩ ∈
      (⟨[[⟨1, "b"⟩]], [⟨0, "a"⟩], [("b", [1])], ⟨2, 1, 1, some 1⟩⟩ :
        GroupResponse).ungrouped := by
  have h := claim_C6_failed_to_ungrouped (fun q => q) env6w photos6w (1/4) 1
    ⟨[[⟨1, "b"⟩]], [⟨0, "a"⟩], [("b", [1])], ⟨2, 1, 1, some 1⟩⟩
    (by rw [← groupPhotosPostE_eq]; with_unfolding_all rfl)
    (by with_unfolding_all decide)
    (by with_unfolding_all decide)
    (by with_unfolding_all decide)
  exact h.1 0 (by decide) (by with_unfolding_all decide)

/-! ### C8/C9: the grouped best-pick loop and scorer-response validation -/

theorem mem_processGroupsFrom (outcomes : ℕ → AnalyzeOutcome) :
    ∀ (gs : List (List Photo)) (i k : ℕ) (g : List Photo) (r : GroupPickResult),
      gs[k]? = some g → processGroup (i + k) g (outcomes (i + k)) = some r →
      r ∈ processGroupsFrom outcomes i gs := by
  intro gs
  induction gs with
  | nil =>
    intro i k g r hget
    rw [List.getElem?_nil] at hget
    cases hget
  | cons g' gs ih =>
    intro i k g r hget hpg
    cases k with
    | zero =>
      rw [List.getElem?_cons_zero] at hget
      injection hget with hg
      subst hg
      rw [Nat.add_zero] at hpg
      simp only [processGroupsFrom, hpg]
      exact List.mem_cons_self _ _
    | succ k =>
      rw [List.getElem?_cons_succ] at hget
      have hpg' : processGroup ((i + 1) + k) g (outcomes ((i + 1) + k)) = some r := by
        rw [show (i + 1) + k = i + (k + 1) from by omega]
        exact hpg
      have hmem := ih (i + 1) k g r hget hpg'
      cases hc : processGroup i g' (outcomes i) with
      | none =>
        simp only [processGroupsFrom, hc]
        exact hmem
      | some r' =>
        simp only [processGroupsFrom, hc]
        exact List.mem_cons_of_mem _ hmem

theorem processGroup_groupId (i : ℕ) (g : List Photo) (out : AnalyzeOutcome)
    (r : GroupPickResult) (h : processGroup i g out = some r) : r.groupId = i := by
  cases g with
  | nil => exact Option.noConfusion h
  | cons p tail =>
    cases tail with
    | nil =>
      injection h with h'
      rw [← h']
    | cons q rest =>
      cases out with
      | httpError =>
        injection h with h'
        rw [← h']
      | okBody ob =>
        cases ob with
        | none =>
          injection h with h'
          rw [← h']
        | some pr =>
          obtain ⟨bp, sc⟩ := pr
          injection h with h'
          rw [← h']

theorem processGroup_isSome (i : ℕ) (g : List Photo) (out : AnalyzeOutcome)
    (h : g ≠ []) : (processGroup i g out).isSome = true := by
  cases g with
  | nil => exact absurd rfl h
  | cons p tail =>
    cases tail with
    | nil => rfl
    | cons q rest =>
      cases out with
      | httpError => rfl
      | okBody ob =>
        cases ob with
        | none => rfl
        | some pr =>
          obtain ⟨bp, sc⟩ := pr
          rfl

/-- C8: a group holding exactly one photo is auto-selected: its loop
iteration returns that photo with score 100 for EVERY possible scoring
outcome (the external call's result is never consulted), and the full
loop's result list contains that entry for every outcome assignment. -/
theorem claim_C8_singleton_auto_winner (photoGroups : List (List Photo))
    (k : ℕ) (p : Photo) (h : photoGroups[k]? = some [p]) :
    (∀ outcome : AnalyzeOutcome,
      processGroup k [p] outcome =
        some ⟨k, some p.id, some p.path, some 100, none⟩) ∧
    (∀ outcomes : ℕ → AnalyzeOutcome,
      (⟨k, some p.id, some p.path, some 100, none⟩ : GroupPickResult) ∈
        processGroups photoGroups outcomes) := by
  constructor
  · intro outcome
    rfl
  · intro outcomes
    refine mem_processGroupsFrom outcomes photoGroups 0 k [p] _ h ?_
    rw [Nat.zero_add]
    rfl

/-- Witness for C8 at the one-photo group `[⟨5, "x"⟩]`. -/
theorem claim_C8_witness :
    (∀ outcome : AnalyzeOutcome,
      processGroup 0 [⟨5, "x"⟩] outcome =
        some ⟨0, some 5, some "x", some 100, none⟩) ∧
    (∀ outcomes : ℕ → AnalyzeOutcome,
      (⟨0, some 5, some "x", some 100, none⟩ : GroupPickResult) ∈
        processGroups [[⟨5, "x"⟩]] outcomes) :=
  claim_C8_singleton_auto_winner [[⟨5, "x"⟩]] 0 ⟨5, "x"⟩ rfl

theorem buildAnalyzed_path (p : String) (e : Option PhotoAnalysisJson)
    (a : AnalyzedPhoto) (h : buildAnalyzed p e = Except.ok a) : a.path = p := by
  cases e with
  | none => exact Except.noConfusion h
  | some pa =>
    injection h with h'
    rw [← h']

theorem buildAllPhotos_mem_path (photoList : List (Option PhotoAnalysisJson)) :
    ∀ (ps : List String) (i : ℕ) (l : List AnalyzedPhoto),
      buildAllPhotos photoList ps i = Except.ok l →
      ∀ a ∈ l, a.path ∈ ps := by
  intro ps
  induction ps with
  | nil =>
    intro i l h a ha
    injection h with h'
    rw [← h'] at ha
    cases ha
  | cons p ps ih =>
    intro i l h a ha
    cases hba : buildAnalyzed p (photoList.getD i none) with
    | error e =>
      simp only [buildAllPhotos, hba] at h
      exact Except.noConfusion h
    | ok a' =>
      simp only [buildAllPhotos, hba] at h
      cases hrec : buildAllPhotos photoList ps (i + 1) with
      | error e =>
        rw [hrec] at h
        exact Except.noConfusion h
      | ok rest =>
        rw [hrec] at h
        injection h with h'
        rw [← h'] at ha
        rcases List.mem_cons.mp ha with rfl | hmem
        · rw [buildAnalyzed_path p _ a hba]
          exact List.mem_cons_self _ _
        · exact List.mem_cons_of_mem _ (ih (i + 1) rest hrec a hmem)

theorem analyzePhotosWithLLM_ok (photoPaths : List String) (resp : ScorerResponse)
    (result : BestPhotoResult)
    (h : analyzePhotosWithLLM photoPaths resp = Except.ok result) :
    result.bestPath ∈ photoPaths := by
  cases resp with
  | noContent => exact Except.noConfusion h
  | noJsonObject => exact Except.noConfusion h
  | malformedJson => exact Except.noConfusion h
  | parsed a =>
    simp only [analyzePhotosWithLLM] at h
    cases hp : a.photos with
    | none =>
      rw [hp] at h
      exact Except.noConfusion h
    | some photoList =>
      simp only [hp] at h
      cases hb : buildAllPhotos photoList photoPaths 0 with
      | error e =>
        rw [hb] at h
        exact Except.noConfusion h
      | ok allPhotos =>
        simp only [hb] at h
        cases hbi : a.bestPhotoIndex with
        | none =>
          rw [hbi] at h
          exact Except.noConfusion h
        | some bi =>
          simp only [hbi] at h
          by_cases hneg : bi < 0
          · rw [if_pos hneg] at h
            exact Except.noConfusion h
          · rw [if_neg hneg] at h
            cases hget : allPhotos.get? bi.toNat with
            | none =>
              rw [hget] at h
              exact Except.noConfusion h
            | some bestPhoto =>
              simp only [hget] at h
              have hr : result.bestPath = bestPhoto.path := by
                injection h with h'
                rw [← h']
              rw [hr]
              exact buildAllPhotos_mem_path photoList photoPaths 0 allPhotos hb
                bestPhoto (List.get?_mem hget)

/-- C9: (a) a successful best-pick result names one of the submitted
paths (the out-of-range / malformed cases can never reach `ok`); (b) each
malformed scorer response — missing content, no JSON object, JSON parse
failure, missing `photos` field, negative or out-of-range best index —
makes `analyzePhotosWithLLM` throw, i.e. return an error; (c) in the
grouped route that error stays that group's own: every non-empty group
contributes to the results exactly the entry computed from its OWN index
and outcome, whatever the other groups' outcomes are, so no group's
failure aborts or perturbs another group's entry. -/
theorem claim_C9_scorer_validation :
    (∀ (photoPaths : List String) (resp : ScorerResponse) (result : BestPhotoResult),
      analyzePhotosWithLLM photoPaths resp = Except.ok result →
      result.bestPath ∈ photoPaths) ∧
    (∀ photoPaths : List String,
      (∃ e, analyzePhotosWithLLM photoPaths ScorerResponse.noContent = Except.error e) ∧
      (∃ e, analyzePhotosWithLLM photoPaths ScorerResponse.noJsonObject = Except.error e) ∧
      (∃ e, analyzePhotosWithLLM photoPaths ScorerResponse.malformedJson = Except.error e) ∧
      (∀ a : ScorerAnalysis, a.photos = none →
        ∃ e, analyzePhotosWithLLM photoPaths (ScorerResponse.parsed a) = Except.error e) ∧
      (∀ (a : ScorerAnalysis) (photoList : List (Option PhotoAnalysisJson))
          (allPhotos : List AnalyzedPhoto) (bi : ℤ),
        a.photos = some photoList →
        buildAllPhotos photoList photoPaths 0 = Except.ok allPhotos →
        a.bestPhotoIndex = some bi →
        (bi < 0 ∨ allPhotos.get? bi.toNat = none) →
        ∃ e, analyzePhotosWithLLM photoPaths (ScorerResponse.parsed a) = Except.error e)) ∧
    (∀ (photoGroups : List (List Photo)) (outcomes : ℕ → AnalyzeOutcome) (k : ℕ)
        (g : List Photo), photoGroups[k]? = some g → g ≠ [] →
      ∃ r, r ∈ processGroups photoGroups outcomes ∧ r.groupId = k ∧
        processGroup k g (outcomes k) = some r) := by
  refine ⟨analyzePhotosWithLLM_ok, ?_, ?_⟩
  · intro photoPaths
    refine ⟨⟨_, rfl⟩, ⟨_, rfl⟩, ⟨_, rfl⟩, ?_, ?_⟩
    · intro a ha
      refine ⟨"TypeError: cannot read properties of undefined", ?_⟩
      simp only [analyzePhotosWithLLM, ha]
    · intro a photoList allPhotos bi hp hb hbi hbad
      refine ⟨"TypeError: cannot read properties of undefined", ?_⟩
      simp only [analyzePhotosWithLLM, hp, hb, hbi]
      rcases hbad with hneg | hnone
      · rw [if_pos hneg]
      · by_cases h0 : bi < 0
        · rw [if_pos h0]
        · rw [if_neg h0]
          simp only [hnone]
  · intro photoGroups outcomes k g hget hne
    cases hr : processGroup k g (outcomes k) with
    | none =>
      have := processGroup_isSome k g (outcomes k) hne
      rw [hr] at this
      cases this
    | some r =>
      refine ⟨r, ?_, processGroup_groupId k g (outcomes k) r hr, rfl⟩
      refine mem_processGroupsFrom outcomes photoGroups 0 k g r hget ?_
      rw [Nat.zero_add]
      exact hr

/-- Witness for C9: the error-isolation conjunct applied to two concrete
groups of which the second group's scoring call fails. -/
theorem claim_C9_witness :
    ∃ r, r ∈ processGroups [[⟨1, "x"⟩, ⟨2, "y"⟩], [⟨3, "u"⟩, ⟨4, "v"⟩]]
        (fun i => if i = 0 then AnalyzeOutcome.okBody (some ("y", 88))
                  else AnalyzeOutcome.httpError) ∧
      r.groupId = 0 ∧
      processGroup 0 [⟨1, "x"⟩, ⟨2, "y"⟩]
        ((fun i => if i = 0 then AnalyzeOutcome.okBody (some ("y", 88))
                   else AnalyzeOutcome.httpError) 0) = some r :=
  claim_C9_scorer_validation.2.2
    [[⟨1, "x"⟩, ⟨2, "y"⟩], [⟨3, "u"⟩, ⟨4, "v"⟩]]
    (fun i => if i = 0 then AnalyzeOutcome.okBody (some ("y", 88))
              else AnalyzeOutcome.httpError)
    0 [⟨1, "x"⟩, ⟨2, "y"⟩] rfl (List.cons_ne_nil _ _)

/-! ### C1/C3/C4: DBSCAN partition, permutation behaviour, minPts = 1 -/

/-- C1: every `dbscan` result is a well-formed partition of the input's
index range: each index `0..N-1` occurs exactly once across the noise
list and the flattened clusters (so no index occurs twice and none is
lost), every listed index is in range, and no returned cluster is empty. -/
theorem claim_C1_partition (sq : ℚ → ℚ) (embeddings : List (List ℚ)) (eps : ℚ)
    (minPts : ℕ) (r : ClusterResult)
    (h : dbscan sq embeddings eps minPts = some r) :
    (∀ i, i < embeddings.length → (r.noise ++ r.clusters.flatten).count i = 1) ∧
    (∀ x ∈ r.noise ++ r.clusters.flatten, x < embeddings.length) ∧
    (∀ cl ∈ r.clusters, cl ≠ []) := by
  have hr := dbscan_eq_some h
  subst hr
  refine ⟨?_, ?_, ?_⟩
  · intro i hi
    exact dbscanCore_count embeddings.length (distOf sq embeddings) eps minPts i hi
  · exact dbscanCore_mem_lt embeddings.length (distOf sq embeddings) eps minPts
  · exact dbscanCore_clusters_ne_nil embeddings.length (distOf sq embeddings) eps minPts

/-- The five-point scenario of spec §8: three identical vectors and two
orthogonal/opposite outliers. -/
def embScene : List (List ℚ) := [[1, 0], [1, 0], [1, 0], [0, 1], [0, -1]]

/-- Witness for C1 at the spec §8 scenario (one cluster `[0,1,2]`, noise
`[3,4]`). -/
theorem claim_C1_witness :
    (∀ i, i < embScene.length →
      (((⟨[[0, 1, 2]], [3, 4]⟩ : ClusterResult).noise ++
        (⟨[[0, 1, 2]], [3, 4]⟩ : ClusterResult).clusters.flatten).count i = 1)) ∧
    (∀ x ∈ (⟨[[0, 1, 2]], [3, 4]⟩ : ClusterResult).noise ++
        (⟨[[0, 1, 2]], [3, 4]⟩ : ClusterResult).clusters.flatten,
      x < embScene.length) ∧
    (∀ cl ∈ (⟨[[0, 1, 2]], [3, 4]⟩ : ClusterResult).clusters, cl ≠ []) :=
  claim_C1_partition (fun q => q) embScene (1/4) 2 ⟨[[0, 1, 2]], [3, 4]⟩
    (by rw [← dbscanE_eq]; with_unfolding_all rfl)

/-- C4: with `minPts = 1` every point is a core point of its own
singleton-or-larger region, so no point ends as noise and every in-range
index lands in some returned cluster. -/
theorem claim_C4_minpts_one (sq : ℚ → ℚ) (embeddings : List (List ℚ)) (eps : ℚ)
    (r : ClusterResult) (hne : embeddings ≠ [])
    (h : dbscan sq embeddings eps 1 = some r) :
    r.noise = [] ∧
    ∀ i, i < embeddings.length → ∃ cl ∈ r.clusters, i ∈ cl := by
  have hr := dbscan_eq_some h
  subst hr
  have hcov : ∀ i, i < embeddings.length →
      covered embeddings.length (distOf sq embeddings) eps 1 i := by
    intro i hi
    refine ⟨i, hi, ?_, self_mem_regionQuery _ _ _ i⟩
    show 1 ≤ _
    have hmem : i ∈ regionQuery embeddings.length (distOf sq embeddings) eps i :=
      self_mem_regionQuery _ _ _ i
    exact List.length_pos.mpr (List.ne_nil_of_mem hmem)
  constructor
  · rw [List.eq_nil_iff_forall_not_mem]
    intro i hi
    have hni := (mem_noise_iff embeddings.length (distOf sq embeddings) eps 1 i).mp hi
    exact hni.2 (hcov i hni.1)
  · intro i hi
    have hcount := dbscanCore_count embeddings.length (distOf sq embeddings) eps 1 i hi
    have hmem : i ∈ (dbscanCore embeddings.length (distOf sq embeddings) eps 1).noise ++
        (dbscanCore embeddings.length (distOf sq embeddings) eps 1).clusters.flatten := by
      by_contra hn
      rw [List.count_eq_zero_of_not_mem hn] at hcount
      exact absurd hcount (by decide)
    rcases List.mem_append.mp hmem with hno | hfl
    · exfalso
      have hni := (mem_noise_iff embeddings.length (distOf sq embeddings) eps 1 i).mp hno
      exact hni.2 (hcov i hni.1)
    · exact List.mem_flatten.mp hfl

/-- Two orthogonal unit vectors for the C4 witness. -/
def embTwo : List (List ℚ) := [[1, 0], [0, 1]]

/-- Witness for C4: with `minPts = 1` the two orthogonal points become two
singleton clusters and no noise. -/
theorem claim_C4_witness :
    (⟨[[0], [1]], []⟩ : ClusterResult).noise = [] ∧
    ∀ i, i < embTwo.length →
      ∃ cl ∈ (⟨[[0], [1]], []⟩ : ClusterResult).clusters, i ∈ cl :=
  claim_C4_minpts_one (fun q => q) embTwo (1/4) ⟨[[0], [1]], []⟩
    (List.cons_ne_nil _ _) (by rw [← dbscanE_eq]; with_unfolding_all rfl)

/-- Seven rational unit vectors along a circular arc: indices 0,1 share one
direction, 5,6 share another, and consecutive directions are at cosine
4/5 of each other, so with `eps = 3/10` (cosine threshold 7/10) only
arc-adjacent points are neighbours and exactly the two interior hub points
are core points for `minPts = 4`. -/
def e1 : List (List ℚ) :=
  [[4/5, -3/5], [4/5, -3/5], [1, 0], [4/5, 3/5], [7/25, 24/25],
   [-44/125, 117/125], [-44/125, 117/125]]

/-- The index reversal of the seven-point input. -/
def rev7 : ℕ → ℕ := fun k => 6 - k

/-- C3 counterexample: reversing the seven-point input changes which
points are clustered together.  In the original run the border point `3`
(vector `[4/5, 3/5]`) is claimed by the first cluster together with point
`2`; in the reversed input the same two vectors — now at indices `3` and
`4 = rev7⁻¹ 2` — end up in DIFFERENT clusters, because cluster growth
order determines which core point claims a shared border point.  So the
co-clustering relation is NOT invariant under input permutation. -/
theorem claim_C3_counterexample :
    dbscan (fun q => q) e1 (3/10) 4 = some ⟨[[0, 1, 2, 3], [4, 5, 6]], []⟩ ∧
    dbscan (fun q => q) (permuted rev7 e1) (3/10) 4 =
      some ⟨[[0, 1, 2, 3], [4, 5, 6]], []⟩ ∧
    ((List.range e1.length).map rev7).Perm (List.range e1.length) ∧
    rev7 4 = 2 ∧ rev7 3 = 3 ∧
    sameCluster ⟨[[0, 1, 2, 3], [4, 5, 6]], []⟩ 2 3 ∧
    ¬ sameCluster ⟨[[0, 1, 2, 3], [4, 5, 6]], []⟩ 4 3 := by
  refine ⟨?_, ?_, ?_, rfl, rfl, ?_, ?_⟩
  · rw [← dbscanE_eq]
    with_unfolding_all rfl
  · rw [← dbscanE_eq]
    with_unfolding_all rfl
  · with_unfolding_all decide
  · unfold sameCluster
    decide
  · unfold sameCluster
    decide

/-- C3 amended.  What IS permutation-invariant in this implementation is
the partition into clustered points and noise: for every input, every
index map `σ` that permutes the index range, and both runs returning a
result, a point of the permuted input is noise exactly when the original
point it stands for (`σ k`) is noise in the original run.  (The full
co-clustering relation is not invariant — see the border-point
counterexample — so the original claim survives only for the
clustered/noise distinction.) -/
theorem claim_C3_noise_permutation_invariant (sq : ℚ → ℚ)
    (embeddings : List (List ℚ)) (eps : ℚ) (minPts : ℕ) (σ : ℕ → ℕ)
    (hperm : ((List.range embeddings.length).map σ).Perm (List.range embeddings.length))
    (r1 r2 : ClusterResult)
    (h1 : dbscan sq embeddings eps minPts = some r1)
    (h2 : dbscan sq (permuted σ embeddings) eps minPts = some r2) :
    ∀ k, k < embeddings.length → (k ∈ r2.noise ↔ σ k ∈ r1.noise) := by
  intro k hk
  have hr1 := dbscan_eq_some h1
  have hr2 := dbscan_eq_some h2
  subst hr1
  subst hr2
  rw [mem_noise_iff, mem_noise_iff, length_permuted]
  constructor
  · rintro ⟨_, hnc⟩
    refine ⟨perm_maps_lt hperm hk, fun hcov => hnc ?_⟩
    exact (covered_permuted sq embeddings eps minPts σ hperm hk).mpr hcov
  · rintro ⟨_, hnc⟩
    refine ⟨hk, fun hcov => hnc ?_⟩
    exact (covered_permuted sq embeddings eps minPts σ hperm hk).mp hcov

/-- Witness for C3 (amended): swapping two orthogonal points maps the
noise set of the permuted run onto the original one. -/
theorem claim_C3_witness :
    0 ∈ (⟨[], [0, 1]⟩ : ClusterResult).noise ↔
      (fun j => 1 - j) 0 ∈ (⟨[], [0, 1]⟩ : ClusterResult).noise :=
  claim_C3_noise_permutation_invariant (fun q => q) embTwo (1/4) 2
    (fun j => 1 - j) (by with_unfolding_all decide) ⟨[], [0, 1]⟩ ⟨[], [0, 1]⟩
    (by rw [← dbscanE_eq]; with_unfolding_all rfl)
    (by rw [← dbscanE_eq]; with_unfolding_all rfl)
    0 (by with_unfolding_all decide)

end PhotoSelector
